import Mathlib

/-!
# objc-unused-imports: symbol registry, class-aware usage matching and report

A shallow embedding of `UnusedImports.cpp`.

* `std::string` is `String`, `unsigned int` is `Nat`.
* `std::unordered_set<T>` is a `List T` read in iteration order; `insert` keeps the
  container free of duplicates, a new element goes to the end.
* `std::unordered_map<K, V>` is a `List (K × V)`, `find` returns the first entry of a key.
* `Symbol::classNames` is a nullable pointer to a set of strings: `Option (List String)`,
  `none` being `nullptr`.
* A call that does not return normally is `none`: dereferencing `nullptr` in `insertSymbol`,
  and the `while (true)` walk of `isSameOrSubClass` when it never leaves the loop.
-/

namespace UnusedImports

/-! ## Data model -/

/-- The enumeration `SymbolType`; the usage kind `Type` is spelled `Type_`. -/
inductive SymbolType where
  | ClassDeclaration
  | Class
  | TypedefDeclaration
  | Type_
  | StructDeclaration
  | Struct
  | VariableDeclaration
  | Variable
  | FunctionDeclaration
  | Function
  | EnumDeclaration
  | Enum
  | ProtocolDeclaration
  | Protocol
  | MethodDeclaration
  | Method
  | EnumConstantDeclaration
  | EnumConstant
  | PropertyDeclaration
  | Property
  | MacroDefinition
  | Macro
  | ProtocolConformanceDeclaration
  | ProtocolConformance
  | CategoryDeclaration
  | Category
  deriving DecidableEq, Repr

/-- The struct `Symbol`: kind, name and the nullable owner set. -/
structure Symbol where
  type : SymbolType
  value : String
  classNames : Option (List String)
  deriving DecidableEq, Repr

/-- The constructor `Symbol(type, value)`: the owner pointer starts as `nullptr`. -/
def Symbol.new (type : SymbolType) (value : String) : Symbol :=
  { type := type, value := value, classNames := none }

/-- The identity of a symbol, as compared by `Symbol::operator==`. -/
def Symbol.key (s : Symbol) : SymbolType × String := (s.type, s.value)

/-- The test `a == b` of `Symbol::operator==`, as a boolean. -/
def Symbol.same (a b : Symbol) : Bool :=
  decide (a.type = b.type ∧ a.value = b.value)

/-! ## Containers -/

/-- The call `set.find(symbol)` on an `unordered_set<Symbol>`. -/
def setFind (set : List Symbol) (symbol : Symbol) : Option Symbol :=
  set.find? (fun s => s.same symbol)

/-- The call `set.insert(symbol)` on an `unordered_set<Symbol>`: nothing happens when an
equal element is present. -/
def setInsert (set : List Symbol) (symbol : Symbol) : List Symbol :=
  match setFind set symbol with
  | some _ => set
  | none => set ++ [symbol]

/-- The call `names->insert(className)` on an `unordered_set<std::string>`. -/
def strInsert (names : List String) (className : String) : List String :=
  if className ∈ names then names else names ++ [className]

/-- The effect of `iter->classNames->insert(className)` seen from the set: the element
`iter` points at (the first one equal to `symbol`) gets the owner set `names`. -/
def setOwners (symbol : Symbol) (names : List String) : List Symbol → List Symbol
  | [] => []
  | s :: rest =>
    if s.same symbol then { s with classNames := some names } :: rest
    else s :: setOwners symbol names rest

/-- The call `map.find(key)` on an `unordered_map`. -/
def mapFind {β : Type} (m : List (String × β)) (key : String) : Option β :=
  (m.find? (fun p => decide (p.1 = key))).map Prod.snd

/-- Assignment through the iterator returned by `map.find(key)`. -/
def mapSet {β : Type} (key : String) (v : β) : List (String × β) → List (String × β)
  | [] => []
  | p :: rest => if p.1 = key then (key, v) :: rest else p :: mapSet key v rest

/-- The expression `lineNumbers[key]`: the stored value, and a zero entry is created when
the key is absent. -/
def mapIndex (m : List (String × Nat)) (key : String) : Nat × List (String × Nat) :=
  match mapFind m key with
  | some v => (v, m)
  | none => (0, m ++ [(key, 0)])

/-! ## Registry: `insertSymbol`, `insertSymbolForFile` -/

/-- The function `insertSymbol`. With a non-empty `className` and an element already in the
set, `iter->classNames->insert(className)` dereferences the element's owner pointer; when
that pointer is `nullptr` the call has no result (`none`). -/
def insertSymbol (set : List Symbol) (symbol : Symbol) (className : String) :
    Option (List Symbol) :=
  if className = "" then
    some (setInsert set symbol)
  else
    match setFind set symbol with
    | none => some (setInsert set { symbol with classNames := some (strInsert [] className) })
    | some found =>
      match found.classNames with
      | none => none
      | some names => some (setOwners symbol (strInsert names className) set)

/-- The function `insertSymbolForFile` on the global `symbolsForFile`, passed explicitly. -/
def insertSymbolForFile (symbolsForFile : List (String × List Symbol)) (fileName : String)
    (symbol : Symbol) (className : String) : Option (List (String × List Symbol)) :=
  match mapFind symbolsForFile fileName with
  | none =>
    (insertSymbol [] symbol className).map
      (fun symbolSet => symbolsForFile ++ [(fileName, symbolSet)])
  | some set =>
    (insertSymbol set symbol className).map (fun set2 => mapSet fileName set2 symbolsForFile)

/-- One registry insert: scope, kind, name and owner class (`""` when there is none). -/
structure InsertEvent where
  fileName : String
  type : SymbolType
  value : String
  className : String
  deriving DecidableEq, Repr

/-- A sequence of `insertSymbolForFile` calls, applied in order. -/
def insertAll : List (String × List Symbol) → List InsertEvent →
    Option (List (String × List Symbol))
  | table, [] => some table
  | table, e :: rest =>
    match insertSymbolForFile table e.fileName (Symbol.new e.type e.value) e.className with
    | none => none
    | some table2 => insertAll table2 rest

/-- The symbols of a scope, the empty set when the scope has no entry (as `main` reads the
main file's symbols). -/
def symbolsOf (symbolsForFile : List (String × List Symbol)) (fileName : String) :
    List Symbol :=
  match mapFind symbolsForFile fileName with
  | some set => set
  | none => []

/-! ## Class hierarchy: `isSameOrSubClass` -/

/-- The loop of `isSameOrSubClass`, run for at most `fuel` iterations; `none` when the loop
is still running after them. -/
def isSameOrSubClassLoop (superClass : List (String × String)) (referenceClass : String) :
    Nat → String → Option Bool
  | 0, _ => none
  | fuel + 1, className =>
    if referenceClass = className then some true
    else
      match mapFind superClass className with
      | none => some false
      | some next => isSameOrSubClassLoop superClass referenceClass fuel next

/-- The function `isSameOrSubClass` on the global `superClass`, passed explicitly. The loop
is run for one iteration more than the index has entries, which is enough for every walk
that ends (`isSameOrSubClass_eq_some_iff`); `none` is returned exactly when the loop of the
source never ends (`isSameOrSubClass_eq_none_iff`). -/
def isSameOrSubClass (superClass : List (String × String))
    (referenceClass testClass : String) : Option Bool :=
  isSameOrSubClassLoop superClass referenceClass (superClass.length + 1) testClass

/-! ## Usage matching -/

/-- The inner loop of `matchWithClass` over the owners of the main file's symbol. -/
def matchOwners (superClass : List (String × String)) (className : String) :
    List String → Option Bool
  | [] => some false
  | mainFileClassName :: rest =>
    if mainFileClassName = "id" then some true
    else
      match isSameOrSubClass superClass className mainFileClassName with
      | none => none
      | some true => some true
      | some false => matchOwners superClass className rest

/-- The outer loop of `matchWithClass` over the owners of the declaration. -/
def matchClasses (superClass : List (String × String)) :
    List String → List String → Option Bool
  | [], _ => some false
  | className :: rest, mainNames =>
    match matchOwners superClass className mainNames with
    | none => none
    | some true => some true
    | some false => matchClasses superClass rest mainNames

/-- The function `matchWithClass`. -/
def matchWithClass (superClass : List (String × String)) (symbol : Symbol)
    (type : SymbolType) (symbols : List Symbol) : Option Bool :=
  match setFind symbols (Symbol.new type symbol.value) with
  | none => some false
  | some mainFileSymbol =>
    match symbol.classNames, mainFileSymbol.classNames with
    | some names, some mainNames => matchClasses superClass names mainNames
    | _, _ => some false

/-- The test `symbols.find(Symbol(type, value)) != symbols.end()`. -/
def setHas (symbols : List Symbol) (type : SymbolType) (value : String) : Bool :=
  (setFind symbols (Symbol.new type value)).isSome

/-- The function `symbolUsed`; `a || b` evaluates `b` only when `a` returned false. -/
def symbolUsed (superClass : List (String × String)) (symbol : Symbol)
    (symbols : List Symbol) : Option Bool :=
  match symbol.type with
  | .ClassDeclaration =>
    some (setHas symbols .Class symbol.value || setHas symbols .Type_ symbol.value)
  | .TypedefDeclaration => some (setHas symbols .Type_ symbol.value)
  | .StructDeclaration => some (setHas symbols .Struct symbol.value)
  | .VariableDeclaration => some (setHas symbols .Variable symbol.value)
  | .FunctionDeclaration => some (setHas symbols .Function symbol.value)
  | .EnumDeclaration => some (setHas symbols .Enum symbol.value)
  | .ProtocolDeclaration =>
    some (setHas symbols .Protocol symbol.value || setHas symbols .Type_ symbol.value)
  | .EnumConstantDeclaration => some (setHas symbols .EnumConstant symbol.value)
  | .MethodDeclaration => matchWithClass superClass symbol .Method symbols
  | .PropertyDeclaration =>
    match matchWithClass superClass symbol .Property symbols with
    | none => none
    | some true => some true
    | some false => matchWithClass superClass symbol .Method symbols
  | .MacroDefinition => some (setHas symbols .Macro symbol.value)
  | .ProtocolConformanceDeclaration =>
    matchWithClass superClass symbol .ProtocolConformance symbols
  | .CategoryDeclaration => some (setHas symbols .Category symbol.value)
  | _ => some false

/-- The function `anySymbolUsed`. -/
def anySymbolUsed (superClass : List (String × String)) :
    List Symbol → List Symbol → Option Bool
  | [], _ => some false
  | symbol :: rest, referenceSymbols =>
    match symbolUsed superClass symbol referenceSymbols with
    | none => none
    | some true => some true
    | some false => anySymbolUsed superClass rest referenceSymbols

/-! ## Report: `hasEnding`, `main` -/

/-- The function `hasEnding`. -/
def hasEnding (fullString ending : String) : Bool :=
  if fullString.length ≥ ending.length then
    fullString.data.drop (fullString.length - ending.length) == ending.data
  else
    false

/-- The line written for an unused import. -/
def warningLine (file : String) (line : Nat) (scope : String) : String :=
  file ++ ":" ++ toString line ++ ": warning: Unused import " ++ scope

/-- The last loop of `main` over `symbolsForFile`, threading `lineNumbers` (which
`lineNumbers[pair.first]` may extend) and the lines written so far. -/
def reportLoop (superClass : List (String × String)) (file : String)
    (mainSymbols : List Symbol) (modulesImported : List String) :
    List (String × List Symbol) → List (String × Nat) → List String →
    Option (List (String × Nat) × List String)
  | [], lineNumbers, out => some (lineNumbers, out)
  | pair :: rest, lineNumbers, out =>
    if !hasEnding pair.1 ".h" && !decide (pair.1 ∈ modulesImported) then
      reportLoop superClass file mainSymbols modulesImported rest lineNumbers out
    else
      match anySymbolUsed superClass pair.2 mainSymbols with
      | none => none
      | some true =>
        reportLoop superClass file mainSymbols modulesImported rest lineNumbers out
      | some false =>
        let r := mapIndex lineNumbers pair.1
        reportLoop superClass file mainSymbols modulesImported rest r.2
          (out ++ [warningLine file r.1 pair.1])

/-- The global state `main` reads once the front-end run is over. -/
structure Analysis where
  symbolsForFile : List (String × List Symbol)
  lineNumbers : List (String × Nat)
  modulesImported : List String
  superClass : List (String × String)

/-- The function `main` after `tool.run` returned `result` and left the globals in state
`a`, for the source path `file`, without `-debug-print`: the lines written and the exit
code. -/
def main (result : Int) (file : String) (a : Analysis) : Option (List String × Int) :=
  let mainSymbols :=
    match mapFind a.symbolsForFile file with
    | some set => set
    | none => []
  match reportLoop a.superClass file mainSymbols a.modulesImported a.symbolsForFile
      a.lineNumbers [] with
  | none => none
  | some r => some (r.2, result)

/-! ## Population: import lines, imported modules, superclasses -/

/-- The call `map.insert(pair(key, v))` on an `unordered_map`: nothing happens when the key
is present. -/
def mapInsert {β : Type} (m : List (String × β)) (key : String) (v : β) :
    List (String × β) :=
  match mapFind m key with
  | some _ => m
  | none => m ++ [(key, v)]

/-- The statement `map[key] = v` on an `unordered_map`: the value of a present key is
replaced, an absent key is added. -/
def mapAssign {β : Type} (m : List (String × β)) (key : String) (v : β) :
    List (String × β) :=
  match mapFind m key with
  | some _ => mapSet key v m
  | none => m ++ [(key, v)]

/-- The function `addSymbolIfIncludedByMain` on the path where the front-end resolved the
symbol to the file `filename`, included by the main file at line `line`: the line is
stored when the file has none yet, then the symbol is inserted. -/
def addSymbolIfIncludedByMain (a : Analysis) (filename : String) (line : Nat)
    (symbol : Symbol) (className : String) : Option Analysis :=
  let lineNumbers :=
    if mapFind a.lineNumbers filename = none then mapInsert a.lineNumbers filename line
    else a.lineNumbers
  match insertSymbolForFile a.symbolsForFile filename symbol className with
  | none => none
  | some table => some { a with lineNumbers := lineNumbers, symbolsForFile := table }

/-- The method `VisitImportDecl` for an import declaration located in the main file at
line `line` that imports the module `name`. -/
def VisitImportDecl (a : Analysis) (name : String) (line : Nat) : Analysis :=
  { a with modulesImported := strInsert a.modulesImported name,
           lineNumbers := mapAssign a.lineNumbers name line }

/-- The statement `superClass.insert(pair(name, superName))` of `VisitObjCInterfaceDecl`, run
for a class definition that has a superclass. -/
def recordSuperClass (superClass : List (String × String)) (name superName : String) :
    List (String × String) :=
  mapInsert superClass name superName

/-- The call `string.find_first_of(ch)`: the index of the first `ch`, `none` for `npos`. -/
def findFirstOf (string : String) (ch : Char) : Option Nat :=
  string.data.findIdx? (fun x => x == ch)

/-- The method `getUpToFirstSpace`. -/
def getUpToFirstSpace (string : String) : String :=
  match findFirstOf string ' ' with
  | none => string
  | some index => String.mk (string.data.take index)

/-- The method `qualTypeSimple`, on the text `fullString` that the front-end prints for the
type (`getAsString()`); this is the owner class the visitor passes with every Method,
Property and ProtocolConformance usage. -/
def qualTypeSimple (fullString : String) : String :=
  let string := getUpToFirstSpace fullString
  match findFirstOf string '<' with
  | none => string
  | some start_index =>
    match findFirstOf string '>' with
    | none => String.mk (string.data.drop (start_index + 1))
    | some end_index =>
      if start_index > end_index then string
      else
        let length := end_index - start_index
        String.mk ((string.data.drop (start_index + 1)).take (length - 1))

/-- A sequence of `insertSymbol` calls for one symbol with the owner classes of a list, in
order. -/
def insertEach (symbol : Symbol) : List Symbol → List String → Option (List Symbol)
  | set, [] => some set
  | set, c :: rest =>
    match insertSymbol set symbol c with
    | none => none
    | some set2 => insertEach symbol set2 rest

/-- A sample final state: main.m uses class A, calls foo on a Derived and expands no macro;
it imports the headers A.h, B.h and Base.h and the module Kit, and Derived -> Base is the
only recorded superclass. -/
def sampleAnalysis : Analysis :=
  { symbolsForFile :=
      [("main.m", [Symbol.new .Type_ "A", ⟨.Method, "foo", some ["Derived"]⟩]),
       ("A.h", [Symbol.new .ClassDeclaration "A"]),
       ("B.h", [Symbol.new .ClassDeclaration "B"]),
       ("Base.h", [⟨.MethodDeclaration, "foo", some ["Base"]⟩]),
       ("Kit", [Symbol.new .MacroDefinition "FOO"]),
       ("Other", [Symbol.new .MacroDefinition "BAR"])],
    lineNumbers := [("A.h", 1), ("B.h", 2), ("Base.h", 3), ("Kit", 4)],
    modulesImported := ["Kit"],
    superClass := [("Derived", "Base")] }

/-! ## Specification vocabulary -/

/-- Every scope of the table is a set, and no scope is listed twice. -/
def TableWF (table : List (String × List Symbol)) : Prop :=
  (table.map Prod.fst).Nodup ∧ ∀ p ∈ table, (p.2.map Symbol.key).Nodup

/-- One superclass link of the index: `a` has the recorded superclass `b`. -/
def Link (superClass : List (String × String)) (a b : String) : Prop :=
  mapFind superClass a = some b

/-- The class `reference` is `candidate` itself or is reached from `candidate` through
superclass links. -/
def Reaches (superClass : List (String × String)) (candidate reference : String) : Prop :=
  Relation.ReflTransGen (Link superClass) candidate reference

/-- No class is reached from itself through one or more superclass links. -/
def Acyclic (superClass : List (String × String)) : Prop :=
  ∀ c, ¬ Relation.TransGen (Link superClass) c c

/-- The superclass of a class, the class itself when none is recorded. -/
def superOf (superClass : List (String × String)) (c : String) : String :=
  (mapFind superClass c).getD c

/-- No two elements of a symbol set are equal under `Symbol::operator==`. -/
def SetWF (set : List Symbol) : Prop := (set.map Symbol.key).Nodup

/-- No two entries of a map have the same key. -/
def MapWF {β : Type} (m : List (String × β)) : Prop := (m.map Prod.fst).Nodup

/-- Plain match of section 4.3: the usage set has an entry of kind `K` named `name`, whatever
its owners. -/
def containsUsage (S : List Symbol) (K : SymbolType) (name : String) : Prop :=
  ∃ u ∈ S, u.type = K ∧ u.value = name

/-- Class-aware match of section 4.3: the usage set has an entry `u` of kind `K` with the
name of `d`, both have owners, and some declaring owner `D` and some usage owner `U` satisfy
`U = "id"` or `isSameOrSubClass(D, U)`. -/
def ClassAwareMatch (superClass : List (String × String)) (d : Symbol) (K : SymbolType)
    (S : List Symbol) : Prop :=
  ∃ u ∈ S, u.type = K ∧ u.value = d.value ∧
    ∃ ds us, d.classNames = some ds ∧ u.classNames = some us ∧
      ∃ D ∈ ds, ∃ U ∈ us, U = "id" ∨ isSameOrSubClass superClass D U = some true

/-- The declaration kinds of the section 4.3 table tested by plain match. -/
def isPlainDeclaration : SymbolType → Bool
  | .ClassDeclaration | .TypedefDeclaration | .StructDeclaration | .VariableDeclaration
  | .FunctionDeclaration | .EnumDeclaration | .EnumConstantDeclaration
  | .ProtocolDeclaration | .MacroDefinition | .CategoryDeclaration => true
  | _ => false

/-- The policy table of section 4.3, row by row: when a declaration `d` counts as used by the
usage set `S`. Kinds that have no row are never used. -/
def tableRule (superClass : List (String × String)) (d : Symbol) (S : List Symbol) : Prop :=
  match d.type with
  | .ClassDeclaration => containsUsage S .Class d.value ∨ containsUsage S .Type_ d.value
  | .TypedefDeclaration => containsUsage S .Type_ d.value
  | .StructDeclaration => containsUsage S .Struct d.value
  | .VariableDeclaration => containsUsage S .Variable d.value
  | .FunctionDeclaration => containsUsage S .Function d.value
  | .EnumDeclaration => containsUsage S .Enum d.value
  | .EnumConstantDeclaration => containsUsage S .EnumConstant d.value
  | .ProtocolDeclaration => containsUsage S .Protocol d.value ∨ containsUsage S .Type_ d.value
  | .MacroDefinition => containsUsage S .Macro d.value
  | .CategoryDeclaration => containsUsage S .Category d.value
  | .MethodDeclaration => matchWithClass superClass d .Method S = some true
  | .PropertyDeclaration =>
    matchWithClass superClass d .Property S = some true ∨
      matchWithClass superClass d .Method S = some true
  | .ProtocolConformanceDeclaration =>
    matchWithClass superClass d .ProtocolConformance S = some true
  | _ => False

/-- The rows of the section 4.3 table tested by plain match, as (declaration kind, usage
kind) pairs. -/
def plainRows : List (SymbolType × SymbolType) :=
  [(.ClassDeclaration, .Class), (.ClassDeclaration, .Type_), (.TypedefDeclaration, .Type_),
   (.StructDeclaration, .Struct), (.VariableDeclaration, .Variable),
   (.FunctionDeclaration, .Function), (.EnumDeclaration, .Enum),
   (.EnumConstantDeclaration, .EnumConstant), (.ProtocolDeclaration, .Protocol),
   (.ProtocolDeclaration, .Type_), (.MacroDefinition, .Macro),
   (.CategoryDeclaration, .Category)]

/-- The rows of the section 4.3 table tested by class-aware match. -/
def classAwareRows : List (SymbolType × SymbolType) :=
  [(.MethodDeclaration, .Method), (.PropertyDeclaration, .Property),
   (.PropertyDeclaration, .Method),
   (.ProtocolConformanceDeclaration, .ProtocolConformance)]

/-- The symbol an insert with owner class `className` creates in a set that has none of
its (kind, name). -/
def freshSymbol (type : SymbolType) (value className : String) : Symbol :=
  { type := type, value := value,
    classNames := if className = "" then none else some [className] }

/-- The usage variants of `SymbolType`. -/
def isUsageKind : SymbolType → Bool
  | .Class | .Type_ | .Struct | .Variable | .Function | .Enum | .Protocol | .Method
  | .EnumConstant | .Property | .Macro | .ProtocolConformance | .Category => true
  | _ => false

/-- The scopes the reporter of section 4.5 finds unused, in table order: a header suffix or
an imported module name, and no symbol of the scope used by the main file. -/
def unusedScopes (a : Analysis) (file : String) : List String :=
  (a.symbolsForFile.map Prod.fst).filter (fun k =>
    (hasEnding k ".h" || decide (k ∈ a.modulesImported)) &&
      (anySymbolUsed a.superClass (symbolsOf a.symbolsForFile k)
        (symbolsOf a.symbolsForFile file) == some false))

/-- The usage set `M2` has every (kind, name) of `M`, with at least the owners `M` has. -/
def UsagesIncluded (M M2 : List Symbol) : Prop :=
  ∀ u ∈ M, ∃ u2 ∈ M2, u2.type = u.type ∧ u2.value = u.value ∧
    ∀ us, u.classNames = some us → ∃ us2, u2.classNames = some us2 ∧ ∀ c ∈ us, c ∈ us2

/-- What a set holds for a (kind, name): `none` when it has no entry, `some none` for an entry
whose owner pointer is null, `some (some names)` for an entry with an owner set. -/
def ownersOf (set : List Symbol) (type : SymbolType) (value : String) :
    Option (Option (List String)) :=
  (setFind set (Symbol.new type value)).map (fun s => s.classNames)

/-- The owners a set has recorded for a (kind, name): empty when there is no entry, and when
the entry has no owner set. -/
def previousOwners (set : List Symbol) (type : SymbolType) (value : String) : List String :=
  match ownersOf set type value with
  | some (some names) => names
  | _ => []

/-- Two owner records agree: both absent, both null, or both sets with the same members. -/
def SameOwners : Option (Option (List String)) → Option (Option (List String)) → Prop
  | none, none => True
  | some none, some none => True
  | some (some x), some (some y) => ∀ c, c ∈ x ↔ c ∈ y
  | _, _ => False

/-- Two symbol sets have the same entries with the same owner sets, whatever the iteration
order. -/
def SameSymbols (A B : List Symbol) : Prop :=
  ∀ t v, SameOwners (ownersOf A t v) (ownersOf B t v)

/-- Two symbol tables have the same scopes, and the same symbols in each. -/
def SameTable (T1 T2 : List (String × List Symbol)) : Prop :=
  ∀ g, match mapFind T1 g, mapFind T2 g with
    | none, none => True
    | some A, some B => SameSymbols A B
    | _, _ => False

/-- The two events name one (kind, name) that their scope does not hold yet, and exactly one
of them carries an owner. -/
def OwnerClash (table : List (String × List Symbol)) (e1 e2 : InsertEvent) : Prop :=
  e1.type = e2.type ∧ e1.value = e2.value ∧
    ((e1.className = "" ∧ e2.className ≠ "") ∨ (e1.className ≠ "" ∧ e2.className = "")) ∧
    ownersOf (symbolsOf table e1.fileName) e1.type e1.value = none

/-- The owner record of a (kind, name) after `insertSymbol` of a symbol with owner pointer
`symOwners` and owner class `c`, from the record before; on a null record the call returns
only for `c = ""`. -/
def ownersAfter (c : String) (symOwners : Option (List String)) :
    Option (Option (List String)) → Option (Option (List String))
  | none => some (if c = "" then symOwners else some [c])
  | some none => some none
  | some (some names) => some (some (if c = "" then names else strInsert names c))

/-! ## Lemmas on the containers -/

theorem mapFind_nil {β : Type} (k : String) : mapFind ([] : List (String × β)) k = none := rfl

theorem mapFind_cons {β : Type} (p : String × β) (m : List (String × β)) (k : String) :
    mapFind (p :: m) k = if p.1 = k then some p.2 else mapFind m k := by
  unfold mapFind
  by_cases h : p.1 = k <;> simp [List.find?, h]

theorem mapFind_some_mem {β : Type} {m : List (String × β)} {k : String} {v : β}
    (h : mapFind m k = some v) : (k, v) ∈ m := by
  induction m with
  | nil => simp [mapFind_nil] at h
  | cons p m ih =>
    rw [mapFind_cons] at h
    by_cases hk : p.1 = k
    · simp [hk] at h
      have : p = (k, v) := by cases p; simp_all
      simp [this]
    · simp [hk] at h
      exact List.mem_cons_of_mem _ (ih h)

theorem mapFind_of_mem {β : Type} {m : List (String × β)} (hwf : MapWF m) {k : String}
    {v : β} (h : (k, v) ∈ m) : mapFind m k = some v := by
  induction m with
  | nil => simp at h
  | cons p m ih =>
    rw [mapFind_cons]
    have hn : p.1 ∉ m.map Prod.fst ∧ MapWF m := by
      simpa [MapWF, List.nodup_cons] using hwf
    rcases List.mem_cons.mp h with h1 | h1
    · simp [← h1]
    · have hk : p.1 ≠ k := by
        intro e
        exact hn.1 (e ▸ List.mem_map_of_mem Prod.fst h1)
      simp [hk, ih hn.2 h1]

theorem mapFind_none_iff {β : Type} {m : List (String × β)} {k : String} :
    mapFind m k = none ↔ k ∉ m.map Prod.fst := by
  induction m with
  | nil => simp [mapFind_nil]
  | cons p m ih =>
    rw [mapFind_cons]
    by_cases hk : p.1 = k
    · simp [hk]
    · simp only [hk, if_false, ih, List.map_cons, List.mem_cons, not_or]
      exact ⟨fun h => ⟨fun e => hk e.symm, h⟩, fun h => h.2⟩

theorem same_iff (s t : Symbol) : s.same t = true ↔ s.key = t.key := by
  simp [Symbol.same, Symbol.key, Prod.ext_iff]

theorem setFind_nil (symbol : Symbol) : setFind [] symbol = none := rfl

theorem setFind_cons (s : Symbol) (set : List Symbol) (symbol : Symbol) :
    setFind (s :: set) symbol = if s.key = symbol.key then some s else setFind set symbol := by
  unfold setFind
  by_cases h : s.key = symbol.key
  · simp [List.find?, h, (same_iff s symbol).mpr h]
  · have : s.same symbol = false := by
      cases hs : s.same symbol
      · rfl
      · exact absurd ((same_iff s symbol).mp hs) h
    simp [List.find?, h, this]

theorem setFind_none_iff {set : List Symbol} {symbol : Symbol} :
    setFind set symbol = none ↔ symbol.key ∉ set.map Symbol.key := by
  induction set with
  | nil => simp [setFind_nil]
  | cons s set ih =>
    rw [setFind_cons]
    by_cases h : s.key = symbol.key
    · simp [h]
    · simp only [h, if_false, ih, List.map_cons, List.mem_cons, not_or]
      exact ⟨fun hh => ⟨fun e => h e.symm, hh⟩, fun hh => hh.2⟩

theorem setFind_some_mem {set : List Symbol} {symbol found : Symbol}
    (h : setFind set symbol = some found) : found ∈ set ∧ found.key = symbol.key := by
  induction set with
  | nil => simp [setFind_nil] at h
  | cons s set ih =>
    rw [setFind_cons] at h
    by_cases hk : s.key = symbol.key
    · simp only [hk, if_true, Option.some.injEq] at h
      subst h
      exact ⟨List.mem_cons_self _ _, hk⟩
    · simp only [hk, if_false] at h
      exact ⟨List.mem_cons_of_mem _ (ih h).1, (ih h).2⟩

theorem setFind_of_mem {set : List Symbol} (hwf : SetWF set) {symbol u : Symbol}
    (hu : u ∈ set) (hk : u.key = symbol.key) : setFind set symbol = some u := by
  induction set with
  | nil => simp at hu
  | cons s set ih =>
    rw [setFind_cons]
    have hn : s.key ∉ set.map Symbol.key ∧ SetWF set := by
      simpa [SetWF, List.nodup_cons] using hwf
    rcases List.mem_cons.mp hu with h1 | h1
    · subst h1; simp [hk]
    · have hne : s.key ≠ symbol.key := by
        intro e
        apply hn.1
        rw [e, ← hk]
        exact List.mem_map_of_mem Symbol.key h1
      simp only [hne, if_false]
      exact ih hn.2 h1

theorem setInsert_keys_nodup {set : List Symbol} (hwf : SetWF set) (symbol : Symbol) :
    SetWF (setInsert set symbol) := by
  unfold setInsert
  cases h : setFind set symbol with
  | some _ => exact hwf
  | none =>
    have hn := setFind_none_iff.mp h
    simp only [SetWF, List.map_append, List.map_cons, List.map_nil]
    exact List.Nodup.append hwf (List.nodup_singleton _)
      (by
        intro k hk hk2
        rw [List.mem_singleton] at hk2
        subst hk2
        exact hn hk)

theorem setOwners_keys (symbol : Symbol) (names : List String) (set : List Symbol) :
    (setOwners symbol names set).map Symbol.key = set.map Symbol.key := by
  induction set with
  | nil => rfl
  | cons s set ih =>
    unfold setOwners
    by_cases h : s.same symbol = true
    · simp [h, Symbol.key]
    · simp [h, ih]

theorem insertSymbol_keys_nodup {set set2 : List Symbol} (hwf : SetWF set)
    {symbol : Symbol} {className : String}
    (h : insertSymbol set symbol className = some set2) : SetWF set2 := by
  unfold insertSymbol at h
  by_cases hc : className = ""
  · simp only [hc, if_true, Option.some.injEq] at h
    subst h
    exact setInsert_keys_nodup hwf _
  · simp only [hc, if_false] at h
    cases hf : setFind set symbol with
    | none =>
      simp only [hf, Option.some.injEq] at h
      subst h
      exact setInsert_keys_nodup hwf _
    | some found =>
      simp only [hf] at h
      cases hn : found.classNames with
      | none => simp [hn] at h
      | some names =>
        simp only [hn, Option.some.injEq] at h
        subst h
        simpa [SetWF, setOwners_keys] using hwf

theorem insertSymbol_eq_none_iff (set : List Symbol) (symbol : Symbol) (c : String) :
    insertSymbol set symbol c = none ↔
      c ≠ "" ∧ ∃ found, setFind set symbol = some found ∧ found.classNames = none := by
  unfold insertSymbol
  by_cases hc : c = ""
  · simp [hc]
  · simp only [hc, if_false, ne_eq, not_false_eq_true, true_and]
    cases hf : setFind set symbol with
    | none => simp
    | some found =>
      cases hn : found.classNames with
      | none => simp [hn]
      | some names => simp [hn]

theorem insertSymbol_present_no_owner {set : List Symbol} {symbol : Symbol}
    (h : (setFind set symbol).isSome = true) : insertSymbol set symbol "" = some set := by
  unfold insertSymbol setInsert
  cases hf : setFind set symbol with
  | none => simp [hf] at h
  | some _ => simp

theorem mapSet_keys {β : Type} (key : String) (v : β) (m : List (String × β)) :
    (mapSet key v m).map Prod.fst = m.map Prod.fst := by
  induction m with
  | nil => rfl
  | cons p m ih =>
    unfold mapSet
    by_cases h : p.1 = key
    · simp [h]
    · simp [h, ih]

theorem mapSet_mem {β : Type} {key : String} {v : β} {m : List (String × β)}
    {q : String × β} (h : q ∈ mapSet key v m) : q ∈ m ∨ q = (key, v) := by
  induction m with
  | nil => simp [mapSet] at h
  | cons p m ih =>
    unfold mapSet at h
    by_cases hk : p.1 = key
    · simp only [hk, if_true, List.mem_cons] at h
      rcases h with h | h
      · exact Or.inr h
      · exact Or.inl (List.mem_cons_of_mem _ h)
    · simp only [hk, if_false, List.mem_cons] at h
      rcases h with h | h
      · exact Or.inl (h ▸ List.mem_cons_self _ _)
      · rcases ih h with h2 | h2
        · exact Or.inl (List.mem_cons_of_mem _ h2)
        · exact Or.inr h2

theorem mapSet_same {β : Type} {key : String} {v : β} {m : List (String × β)}
    (h : mapFind m key = some v) : mapSet key v m = m := by
  induction m with
  | nil => rfl
  | cons p m ih =>
    rw [mapFind_cons] at h
    unfold mapSet
    by_cases hk : p.1 = key
    · simp only [hk, if_true, Option.some.injEq] at h
      simp only [hk, if_true]
      congr 1
      cases p
      simp_all
    · simp only [hk, if_false] at h
      simp [hk, ih h]

theorem insertSymbolForFile_wf {table table2 : List (String × List Symbol)}
    (hwf : TableWF table) {fileName : String} {symbol : Symbol} {className : String}
    (h : insertSymbolForFile table fileName symbol className = some table2) :
    TableWF table2 := by
  unfold insertSymbolForFile at h
  cases hf : mapFind table fileName with
  | none =>
    simp only [hf, Option.map_eq_some'] at h
    obtain ⟨set2, hs, rfl⟩ := h
    have hk := mapFind_none_iff.mp hf
    refine ⟨?_, ?_⟩
    · simp only [List.map_append, List.map_cons, List.map_nil]
      exact List.Nodup.append hwf.1 (List.nodup_singleton _)
        (by
          intro k hk1 hk2
          rw [List.mem_singleton] at hk2
          subst hk2
          exact hk hk1)
    · intro p hp
      rcases List.mem_append.mp hp with hp | hp
      · exact hwf.2 p hp
      · rw [List.mem_singleton] at hp
        subst hp
        have hnil : SetWF [] := by simp [SetWF]
        exact insertSymbol_keys_nodup hnil hs
  | some set =>
    simp only [hf, Option.map_eq_some'] at h
    obtain ⟨set2, hs, rfl⟩ := h
    have hmem := mapFind_some_mem hf
    refine ⟨?_, ?_⟩
    · rw [mapSet_keys]; exact hwf.1
    · intro p hp
      rcases mapSet_mem hp with hp | hp
      · exact hwf.2 p hp
      · subst hp
        exact insertSymbol_keys_nodup (hwf.2 _ hmem) hs

theorem insertAll_wf (events : List InsertEvent) :
    ∀ {table table2 : List (String × List Symbol)}, TableWF table →
      insertAll table events = some table2 → TableWF table2 := by
  induction events with
  | nil =>
    intro table table2 hwf h
    simp only [insertAll, Option.some.injEq] at h
    exact h ▸ hwf
  | cons e rest ih =>
    intro table table2 hwf h
    unfold insertAll at h
    cases hs : insertSymbolForFile table e.fileName (Symbol.new e.type e.value) e.className with
    | none => simp [hs] at h
    | some t =>
      simp only [hs] at h
      exact ih (insertSymbolForFile_wf hwf hs) h

theorem insertSymbolForFile_present_no_owner {table : List (String × List Symbol)}
    {fileName : String} {set : List Symbol} {symbol : Symbol}
    (hf : mapFind table fileName = some set) (hs : (setFind set symbol).isSome = true) :
    insertSymbolForFile table fileName symbol "" = some table := by
  unfold insertSymbolForFile
  simp only [hf, insertSymbol_present_no_owner hs, Option.map_some', mapSet_same hf]

theorem insertAll_replicate_present (fileName : String) (symbol : Symbol)
    (table : List (String × List Symbol)) (set : List Symbol)
    (hf : mapFind table fileName = some set) (hs : (setFind set symbol).isSome = true) :
    ∀ n, insertAll table
      (List.replicate n ⟨fileName, symbol.type, symbol.value, ""⟩) = some table := by
  have hsym : (setFind set (Symbol.new symbol.type symbol.value)).isSome = true := by
    have : setFind set (Symbol.new symbol.type symbol.value) = setFind set symbol := by
      unfold setFind
      congr 1
    rw [this]; exact hs
  intro n
  induction n with
  | zero => rfl
  | succ n ih =>
    rw [List.replicate_succ, insertAll]
    simp only [insertSymbolForFile_present_no_owner hf hsym]
    exact ih

theorem mapFind_append {β : Type} (m l : List (String × β)) (k : String) :
    mapFind (m ++ l) k =
      match mapFind m k with
      | some v => some v
      | none => mapFind l k := by
  induction m with
  | nil => simp [mapFind_nil]
  | cons p m ih =>
    rw [List.cons_append, mapFind_cons, mapFind_cons]
    by_cases h : p.1 = k
    · simp [h]
    · simp only [h, if_false, ih]

theorem mapFind_mapSet_ne {β : Type} (m : List (String × β)) (f g : String) (v : β)
    (h : g ≠ f) : mapFind (mapSet f v m) g = mapFind m g := by
  induction m with
  | nil => rfl
  | cons p m ih =>
    unfold mapSet
    by_cases hp : p.1 = f
    · have hfg : ¬ f = g := fun e => h e.symm
      have hpg : ¬ p.1 = g := fun e => hfg (hp ▸ e)
      simp only [hp, if_true]
      rw [mapFind_cons, mapFind_cons]
      simp only [hfg, hpg, if_false]
    · simp only [hp, if_false, mapFind_cons, ih]

theorem insertSymbolForFile_frame {table table2 : List (String × List Symbol)}
    {fileName : String} {symbol : Symbol} {className : String}
    (h : insertSymbolForFile table fileName symbol className = some table2) (g : String)
    (hg : g ≠ fileName) : mapFind table2 g = mapFind table g := by
  unfold insertSymbolForFile at h
  cases hf : mapFind table fileName with
  | none =>
    simp only [hf, Option.map_eq_some'] at h
    obtain ⟨set2, _, rfl⟩ := h
    rw [mapFind_append]
    cases mapFind table g with
    | some v => rfl
    | none => simp [mapFind_cons, mapFind_nil, hg.symm]
  | some set =>
    simp only [hf, Option.map_eq_some'] at h
    obtain ⟨set2, _, rfl⟩ := h
    exact mapFind_mapSet_ne table fileName g set2 hg

theorem setFind_key_congr (set : List Symbol) {q q2 : Symbol} (h : q.key = q2.key) :
    setFind set q = setFind set q2 := by
  induction set with
  | nil => rfl
  | cons s set ih => rw [setFind_cons, setFind_cons, ih, h]

theorem setFind_append_single (set : List Symbol) (x q : Symbol) :
    setFind (set ++ [x]) q =
      match setFind set q with
      | some s => some s
      | none => if x.key = q.key then some x else none := by
  induction set with
  | nil => simp [setFind_cons, setFind_nil]
  | cons s set ih =>
    rw [List.cons_append, setFind_cons, setFind_cons]
    by_cases h : s.key = q.key
    · simp [h]
    · simp only [h, if_false, ih]

theorem setFind_setOwners_same (sym : Symbol) (names : List String) (set : List Symbol)
    (q : Symbol) (h : q.key = sym.key) :
    setFind (setOwners sym names set) q =
      (setFind set sym).map (fun f => { f with classNames := some names }) := by
  induction set with
  | nil => rfl
  | cons s set ih =>
    unfold setOwners
    by_cases hk : s.key = sym.key
    · have hs : s.same sym = true := (same_iff s sym).mpr hk
      simp only [hs, if_true]
      rw [setFind_cons, setFind_cons]
      have : ({ s with classNames := some names } : Symbol).key = q.key := by
        rw [h]; exact hk
      simp [this, hk]
    · have hs : s.same sym = false := by
        cases hs : s.same sym
        · rfl
        · exact absurd ((same_iff s sym).mp hs) hk
      have hq : ¬ s.key = q.key := by rw [h]; exact hk
      simp only [hs, Bool.false_eq_true, if_false]
      rw [setFind_cons, setFind_cons]
      simp only [hq, hk, if_false, ih]

theorem setFind_setOwners_other (sym : Symbol) (names : List String) (set : List Symbol)
    (q : Symbol) (h : q.key ≠ sym.key) :
    setFind (setOwners sym names set) q = setFind set q := by
  induction set with
  | nil => rfl
  | cons s set ih =>
    unfold setOwners
    by_cases hk : s.key = sym.key
    · have hs : s.same sym = true := (same_iff s sym).mpr hk
      have hq : ¬ s.key = q.key := fun e => h (e ▸ hk)
      have hq2 : ¬ ({ s with classNames := some names } : Symbol).key = q.key := hq
      simp only [hs, if_true]
      rw [setFind_cons, setFind_cons]
      simp only [hq, hq2, if_false]
    · have hs : s.same sym = false := by
        cases hs : s.same sym
        · rfl
        · exact absurd ((same_iff s sym).mp hs) hk
      simp only [hs, Bool.false_eq_true, if_false]
      rw [setFind_cons, setFind_cons, ih]

theorem strInsert_nil (c : String) : strInsert [] c = [c] := by
  simp [strInsert]

theorem mem_strInsert (names : List String) (c x : String) :
    x ∈ strInsert names c ↔ x ∈ names ∨ x = c := by
  unfold strInsert
  by_cases h : c ∈ names
  · simp only [h, if_true]
    constructor
    · exact Or.inl
    · rintro (hx | hx)
      · exact hx
      · exact hx ▸ h
  · simp [h]

theorem ownersOf_insertSymbol_same {set set2 : List Symbol} {sym : Symbol} {c : String}
    (h : insertSymbol set sym c = some set2) :
    ownersOf set2 sym.type sym.value =
      ownersAfter c sym.classNames (ownersOf set sym.type sym.value) := by
  have hq : (Symbol.new sym.type sym.value).key = sym.key := rfl
  have hfq : setFind set (Symbol.new sym.type sym.value) = setFind set sym :=
    setFind_key_congr set hq
  unfold insertSymbol at h
  unfold ownersOf
  rw [hfq]
  by_cases hc : c = ""
  · simp only [hc, if_true, Option.some.injEq] at h
    subst h
    unfold setInsert
    cases hf : setFind set sym with
    | none =>
      simp only [setFind_append_single, hfq, hf]
      simp [ownersAfter, hc, Symbol.key, Symbol.new]
    | some found =>
      simp only [hfq, hf, Option.map_some']
      cases found.classNames <;> simp [ownersAfter, hc]
  · simp only [hc, if_false] at h
    cases hf : setFind set sym with
    | none =>
      simp only [hf, Option.some.injEq] at h
      subst h
      have hf2 : setFind set { sym with classNames := some (strInsert [] c) } = none := by
        rw [← hf]; exact setFind_key_congr set rfl
      unfold setInsert
      simp only [hf2, setFind_append_single, hfq, hf]
      simp [ownersAfter, hc, Symbol.key, Symbol.new, strInsert_nil]
    | some found =>
      simp only [hf] at h
      cases hn : found.classNames with
      | none => simp [hn] at h
      | some names =>
        simp only [hn, Option.some.injEq] at h
        subst h
        rw [setFind_setOwners_same sym _ set _ hq, hf]
        simp [ownersAfter, hc, hn]

theorem ownersOf_insertSymbol_other {set set2 : List Symbol} {sym : Symbol} {c : String}
    (h : insertSymbol set sym c = some set2) (t : SymbolType) (v : String)
    (hne : (t, v) ≠ sym.key) : ownersOf set2 t v = ownersOf set t v := by
  have hq : (Symbol.new t v).key ≠ sym.key := hne
  have hq2 : ¬ sym.key = (Symbol.new t v).key := fun e => hq e.symm
  unfold insertSymbol at h
  unfold ownersOf
  by_cases hc : c = ""
  · simp only [hc, if_true, Option.some.injEq] at h
    subst h
    unfold setInsert
    cases hf : setFind set sym with
    | none =>
      rw [setFind_append_single]
      cases setFind set (Symbol.new t v) with
      | none => simp [hq2]
      | some s => rfl
    | some found => rfl
  · simp only [hc, if_false] at h
    cases hf : setFind set sym with
    | none =>
      simp only [hf, Option.some.injEq] at h
      subst h
      have hf2 : setFind set { sym with classNames := some (strInsert [] c) } = none := by
        rw [← hf]; exact setFind_key_congr set rfl
      unfold setInsert
      simp only [hf2]
      rw [setFind_append_single]
      have hq3 : ¬ ({ sym with classNames := some (strInsert [] c) } : Symbol).key =
          (Symbol.new t v).key := hq2
      cases setFind set (Symbol.new t v) with
      | none => simp [hq3]
      | some s => rfl
    | some found =>
      simp only [hf] at h
      cases hn : found.classNames with
      | none => simp [hn] at h
      | some names =>
        simp only [hn, Option.some.injEq] at h
        subst h
        rw [setFind_setOwners_other sym _ set _ hq]

theorem insertSymbol_none_iff_owners (set : List Symbol) (sym : Symbol) (c : String) :
    insertSymbol set sym c = none ↔
      c ≠ "" ∧ ownersOf set sym.type sym.value = some none := by
  rw [insertSymbol_eq_none_iff]
  have hfq : setFind set (Symbol.new sym.type sym.value) = setFind set sym :=
    setFind_key_congr set rfl
  unfold ownersOf
  rw [hfq]
  cases setFind set sym with
  | none => simp
  | some found => simp

theorem mem_setOwners_other (sym : Symbol) (names : List String) (set : List Symbol)
    (s : Symbol) (h : s.key ≠ sym.key) : s ∈ setOwners sym names set ↔ s ∈ set := by
  induction set with
  | nil => simp [setOwners]
  | cons a set ih =>
    unfold setOwners
    by_cases hk : a.key = sym.key
    · have hs : a.same sym = true := (same_iff a sym).mpr hk
      have h1 : s ≠ a := fun e => h (e ▸ hk)
      have h2 : s ≠ { a with classNames := some names } := by
        intro e
        apply h
        rw [e]
        exact hk
      simp only [hs, if_true, List.mem_cons, h1, h2, false_or]
    · have hs : a.same sym = false := by
        cases hs : a.same sym
        · rfl
        · exact absurd ((same_iff a sym).mp hs) hk
      simp only [hs, Bool.false_eq_true, if_false, List.mem_cons, ih]

theorem insertSymbol_mem_other {set set2 : List Symbol} {sym : Symbol} {c : String}
    (h : insertSymbol set sym c = some set2) (s : Symbol) (hne : s.key ≠ sym.key) :
    s ∈ set2 ↔ s ∈ set := by
  unfold insertSymbol at h
  have happ : ∀ x : Symbol, x.key = sym.key → (s ∈ setInsert set x ↔ s ∈ set) := by
    intro x hx
    unfold setInsert
    cases setFind set x with
    | some _ => rfl
    | none =>
      have : s ≠ x := fun e => hne (e ▸ hx)
      simp [this]
  by_cases hc : c = ""
  · simp only [hc, if_true, Option.some.injEq] at h
    subst h
    exact happ sym rfl
  · simp only [hc, if_false] at h
    cases hf : setFind set sym with
    | none =>
      simp only [hf, Option.some.injEq] at h
      subst h
      exact happ _ rfl
    | some found =>
      simp only [hf] at h
      cases hn : found.classNames with
      | none => simp [hn] at h
      | some names =>
        simp only [hn, Option.some.injEq] at h
        subst h
        exact mem_setOwners_other sym _ set s hne

theorem ownersOf_some_mem {set : List Symbol} {t : SymbolType} {v : String}
    {o : Option (List String)} (h : ownersOf set t v = some o) :
    ∃ e ∈ set, e.type = t ∧ e.value = v ∧ e.classNames = o := by
  unfold ownersOf at h
  cases hf : setFind set (Symbol.new t v) with
  | none => simp [hf] at h
  | some e =>
    simp only [hf, Option.map_some', Option.some.injEq] at h
    obtain ⟨hm, hk⟩ := setFind_some_mem hf
    simp only [Symbol.key, Symbol.new, Prod.mk.injEq] at hk
    exact ⟨e, hm, hk.1, hk.2, h⟩

theorem key_unique {set : List Symbol} (hwf : SetWF set) {a b : Symbol} (ha : a ∈ set)
    (hb : b ∈ set) (h : a.key = b.key) : a = b := by
  have h1 : setFind set b = some a := setFind_of_mem hwf ha h
  have h2 : setFind set b = some b := setFind_of_mem hwf hb rfl
  rw [h1] at h2
  exact Option.some.inj h2

theorem insertSymbol_owner_step {set : List Symbol} (sym : Symbol) {c : String}
    (hc : c ≠ "") (hown : ownersOf set sym.type sym.value ≠ some none) :
    ∃ set2 os, insertSymbol set sym c = some set2 ∧
      ownersOf set2 sym.type sym.value = some (some os) ∧
      ∀ x, x ∈ os ↔ x ∈ previousOwners set sym.type sym.value ∨ x = c := by
  cases hres : insertSymbol set sym c with
  | none =>
    exact absurd ((insertSymbol_none_iff_owners set sym c).mp hres).2 hown
  | some set2 =>
    have h := ownersOf_insertSymbol_same hres
    cases hx : ownersOf set sym.type sym.value with
    | none =>
      refine ⟨set2, [c], rfl, ?_, ?_⟩
      · rw [h, hx]; simp [ownersAfter, hc]
      · intro x; simp [previousOwners, hx]
    | some o =>
      cases o with
      | none => exact absurd hx hown
      | some names =>
        refine ⟨set2, strInsert names c, rfl, ?_, ?_⟩
        · rw [h, hx]; simp [ownersAfter, hc]
        · intro x
          simp only [previousOwners, hx]
          exact mem_strInsert names c x

theorem insertEach_owners (sym : Symbol) :
    ∀ (cs : List String) (set : List Symbol), SetWF set → (∀ x ∈ cs, x ≠ "") →
      ownersOf set sym.type sym.value ≠ some none →
      ∃ set2, insertEach sym set cs = some set2 ∧ SetWF set2 ∧
        (∀ s : Symbol, s.key ≠ sym.key → (s ∈ set2 ↔ s ∈ set)) ∧
        (cs ≠ [] → ∃ os, ownersOf set2 sym.type sym.value = some (some os) ∧
          ∀ x, x ∈ os ↔ x ∈ previousOwners set sym.type sym.value ∨ x ∈ cs) := by
  intro cs
  induction cs with
  | nil =>
    intro set hwf _ _
    exact ⟨set, rfl, hwf, fun _ _ => Iff.rfl, fun h => absurd rfl h⟩
  | cons c rest ih =>
    intro set hwf hne hown
    have hc : c ≠ "" := hne c (List.mem_cons_self _ _)
    obtain ⟨set1, os1, h1, ho1, hmem1⟩ := insertSymbol_owner_step sym hc hown
    have hwf1 : SetWF set1 := insertSymbol_keys_nodup hwf h1
    have hown1 : ownersOf set1 sym.type sym.value ≠ some none := by
      rw [ho1]; simp
    obtain ⟨set2, h2, hwf2, hoth2, hos2⟩ := ih set1 hwf1
      (fun x hx => hne x (List.mem_cons_of_mem _ hx)) hown1
    refine ⟨set2, ?_, hwf2, ?_, ?_⟩
    · simp only [insertEach, h1, h2]
    · intro s hs
      rw [hoth2 s hs, insertSymbol_mem_other h1 s hs]
    · intro _
      by_cases hr : rest = []
      · subst hr
        simp only [insertEach, Option.some.injEq] at h2
        subst h2
        refine ⟨os1, ho1, ?_⟩
        intro x
        rw [hmem1 x]
        simp
      · obtain ⟨os, ho, hmem⟩ := hos2 hr
        refine ⟨os, ho, ?_⟩
        intro x
        rw [hmem x]
        have hp : previousOwners set1 sym.type sym.value = os1 := by
          simp [previousOwners, ho1]
        rw [hp, hmem1 x]
        simp only [List.mem_cons]
        tauto

theorem mapFind_mapSet_same {β : Type} (m : List (String × β)) (f : String) (v w : β)
    (h : mapFind m f = some w) : mapFind (mapSet f v m) f = some v := by
  induction m with
  | nil => simp [mapFind_nil] at h
  | cons p m ih =>
    rw [mapFind_cons] at h
    unfold mapSet
    by_cases hp : p.1 = f
    · simp [hp, mapFind_cons]
    · simp only [hp, if_false] at h
      simp only [hp, if_false, mapFind_cons, ih h]

theorem mapFind_mapAssign_same {β : Type} (m : List (String × β)) (f : String) (v : β) :
    mapFind (mapAssign m f v) f = some v := by
  unfold mapAssign
  cases h : mapFind m f with
  | none =>
    simp only []
    rw [mapFind_append, h]
    simp [mapFind_cons]
  | some w => exact mapFind_mapSet_same m f v w h

theorem mapFind_mapAssign_ne {β : Type} (m : List (String × β)) (f g : String) (v : β)
    (h : g ≠ f) : mapFind (mapAssign m f v) g = mapFind m g := by
  unfold mapAssign
  cases mapFind m f with
  | none =>
    show mapFind (m ++ [(f, v)]) g = mapFind m g
    rw [mapFind_append]
    cases mapFind m g with
    | some _ => rfl
    | none => simp [mapFind_cons, mapFind_nil, h.symm]
  | some w => exact mapFind_mapSet_ne m f g v h

theorem insertSymbolForFile_eq (table : List (String × List Symbol)) (f : String)
    (symbol : Symbol) (c : String) :
    insertSymbolForFile table f symbol c =
      (insertSymbol (symbolsOf table f) symbol c).map (mapAssign table f) := by
  unfold insertSymbolForFile symbolsOf mapAssign
  cases h : mapFind table f with
  | none => rfl
  | some set => rfl

theorem symbolsOf_mapAssign (table : List (String × List Symbol)) (f : String)
    (set : List Symbol) : symbolsOf (mapAssign table f set) f = set := by
  unfold symbolsOf
  rw [mapFind_mapAssign_same]

theorem insertAll_two_same (table : List (String × List Symbol)) (e1 e2 : InsertEvent)
    (hf : e1.fileName = e2.fileName) :
    insertAll table [e1, e2] =
      (insertSymbol (symbolsOf table e1.fileName) (Symbol.new e1.type e1.value)
          e1.className).bind
        (fun A => (insertSymbol A (Symbol.new e2.type e2.value) e2.className).map
          (fun A2 => mapAssign (mapAssign table e1.fileName A) e1.fileName A2)) := by
  simp only [insertAll, insertSymbolForFile_eq, ← hf]
  cases h1 : insertSymbol (symbolsOf table e1.fileName) (Symbol.new e1.type e1.value)
      e1.className with
  | none => rfl
  | some A =>
    simp only [Option.map_some', Option.some_bind, symbolsOf_mapAssign]
    cases h2 : insertSymbol A (Symbol.new e2.type e2.value) e2.className with
    | none => rfl
    | some A2 => rfl

theorem sameOwners_refl (x : Option (Option (List String))) : SameOwners x x := by
  cases x with
  | none => trivial
  | some o =>
    cases o with
    | none => trivial
    | some names => intro _; exact Iff.rfl

theorem ownersAfter_comm (x : Option (Option (List String))) (c1 c2 : String)
    (h1 : c1 = "" ∨ x ≠ some none) (h2 : c2 = "" ∨ ownersAfter c1 none x ≠ some none)
    (h3 : c2 = "" ∨ x ≠ some none) (h4 : c1 = "" ∨ ownersAfter c2 none x ≠ some none) :
    SameOwners (ownersAfter c2 none (ownersAfter c1 none x))
      (ownersAfter c1 none (ownersAfter c2 none x)) := by
  cases x with
  | none =>
    by_cases e1 : c1 = "" <;> by_cases e2 : c2 = "" <;>
      simp only [ownersAfter, e1, e2, if_true, if_false, SameOwners, ne_eq, not_true_eq_false,
        or_false, false_or, Option.some.injEq, not_false_eq_true, or_true, true_or,
        reduceCtorEq] at h2 h4 ⊢
    intro c
    rw [mem_strInsert, mem_strInsert]
    simp only [List.mem_singleton]
    exact Or.comm
  | some o =>
    cases o with
    | none =>
      by_cases e1 : c1 = "" <;> by_cases e2 : c2 = "" <;>
        simp only [ownersAfter, e1, e2, SameOwners, ne_eq, not_true_eq_false, or_false,
          false_or] at h1 h3 ⊢
    | some names =>
      by_cases e1 : c1 = "" <;> by_cases e2 : c2 = "" <;>
        simp only [ownersAfter, e1, e2, if_true, if_false, SameOwners]
      all_goals
        intro c
        first
          | trivial
          | exact Iff.rfl
          | (simp only [mem_strInsert]; tauto)

theorem insertSymbol_some_owners {set set2 : List Symbol} {sym : Symbol} {c : String}
    (h : insertSymbol set sym c = some set2) :
    c = "" ∨ ownersOf set sym.type sym.value ≠ some none := by
  by_cases hc : c = ""
  · exact Or.inl hc
  · right
    intro hx
    have := (insertSymbol_none_iff_owners set sym c).mpr ⟨hc, hx⟩
    rw [this] at h
    cases h

theorem two_inserts_same {S A A2 B B2 : List Symbol} {t1 t2 : SymbolType}
    {v1 v2 c1 c2 : String}
    (h1 : insertSymbol S (Symbol.new t1 v1) c1 = some A)
    (h2 : insertSymbol A (Symbol.new t2 v2) c2 = some A2)
    (h3 : insertSymbol S (Symbol.new t2 v2) c2 = some B)
    (h4 : insertSymbol B (Symbol.new t1 v1) c1 = some B2) : SameSymbols A2 B2 := by
  intro t v
  have a1 := ownersOf_insertSymbol_same h1
  have a2 := ownersOf_insertSymbol_same h2
  have a3 := ownersOf_insertSymbol_same h3
  have a4 := ownersOf_insertSymbol_same h4
  have o1 := ownersOf_insertSymbol_other h1
  have o2 := ownersOf_insertSymbol_other h2
  have o3 := ownersOf_insertSymbol_other h3
  have o4 := ownersOf_insertSymbol_other h4
  have f1 := insertSymbol_some_owners h1
  have f2 := insertSymbol_some_owners h2
  have f3 := insertSymbol_some_owners h3
  have f4 := insertSymbol_some_owners h4
  simp only [Symbol.new, Symbol.key] at a1 a2 a3 a4 o1 o2 o3 o4 f1 f2 f3 f4
  by_cases hk : (t1, v1) = (t2, v2)
  · have ht : t1 = t2 := (Prod.mk.inj hk).1
    have hv : v1 = v2 := (Prod.mk.inj hk).2
    subst ht hv
    by_cases hq : (t, v) = (t1, v1)
    · have ht : t = t1 := (Prod.mk.inj hq).1
      have hv : v = v1 := (Prod.mk.inj hq).2
      subst ht hv
      rw [a2, a1, a4, a3]
      rw [a1] at f2
      rw [a3] at f4
      exact ownersAfter_comm _ c1 c2 f1 f2 f3 f4
    · rw [o2 t v hq, o1 t v hq, o4 t v hq, o3 t v hq]
      exact sameOwners_refl _
  · by_cases hq1 : (t, v) = (t1, v1)
    · have ht : t = t1 := (Prod.mk.inj hq1).1
      have hv : v = v1 := (Prod.mk.inj hq1).2
      subst ht hv
      rw [o2 t v hk, a1, a4, o3 t v hk]
      exact sameOwners_refl _
    · by_cases hq2 : (t, v) = (t2, v2)
      · have ht : t = t2 := (Prod.mk.inj hq2).1
        have hv : v = v2 := (Prod.mk.inj hq2).2
        subst ht hv
        rw [a2, o1 t v hq1, o4 t v hq1, a3]
        exact sameOwners_refl _
      · rw [o2 t v hq2, o1 t v hq1, o4 t v hq1, o3 t v hq2]
        exact sameOwners_refl _

theorem ownersAfter_eq_some_none (c : String) (x : Option (Option (List String))) :
    ownersAfter c none x = some none ↔ (x = none ∧ c = "") ∨ x = some none := by
  cases x with
  | none => by_cases hc : c = "" <;> simp [ownersAfter, hc]
  | some o => cases o <;> simp [ownersAfter]

theorem two_inserts_none_iff (S : List Symbol) (t1 t2 : SymbolType)
    (v1 v2 c1 c2 : String) :
    (insertSymbol S (Symbol.new t1 v1) c1).bind
        (fun A => insertSymbol A (Symbol.new t2 v2) c2) = none ↔
      ((t1, v1) = (t2, v2) ∧
        ((ownersOf S t1 v1 = some none ∧ (c1 ≠ "" ∨ c2 ≠ "")) ∨
          (ownersOf S t1 v1 = none ∧ c1 = "" ∧ c2 ≠ ""))) ∨
      ((t1, v1) ≠ (t2, v2) ∧
        ((c1 ≠ "" ∧ ownersOf S t1 v1 = some none) ∨
          (c2 ≠ "" ∧ ownersOf S t2 v2 = some none))) := by
  cases h1 : insertSymbol S (Symbol.new t1 v1) c1 with
  | none =>
    have hc := (insertSymbol_none_iff_owners S (Symbol.new t1 v1) c1).mp h1
    simp only [Symbol.new] at hc
    simp only [Option.none_bind, true_iff]
    by_cases hk : (t1, v1) = (t2, v2)
    · exact Or.inl ⟨hk, Or.inl ⟨hc.2, Or.inl hc.1⟩⟩
    · exact Or.inr ⟨hk, Or.inl hc⟩
  | some A =>
    have f1 := insertSymbol_some_owners h1
    have a1 := ownersOf_insertSymbol_same h1
    have o1 := ownersOf_insertSymbol_other h1
    simp only [Symbol.new, Symbol.key] at f1 a1 o1
    simp only [Option.some_bind]
    rw [insertSymbol_none_iff_owners]
    simp only [Symbol.new]
    by_cases hk : (t1, v1) = (t2, v2)
    · have ht : t1 = t2 := (Prod.mk.inj hk).1
      have hv : v1 = v2 := (Prod.mk.inj hk).2
      subst ht hv
      rw [a1, ownersAfter_eq_some_none]
      simp only [ne_eq, true_and, not_true_eq_false, false_and, or_false]
      constructor
      · rintro ⟨hc2, (⟨hx, hc1⟩ | hx)⟩
        · exact Or.inr ⟨hx, hc1, hc2⟩
        · exact Or.inl ⟨hx, Or.inr hc2⟩
      · rintro (⟨hx, hc | hc⟩ | ⟨hx, hc1, hc2⟩)
        · rcases f1 with f | f
          · exact absurd f hc
          · exact absurd hx f
        · exact ⟨hc, Or.inr hx⟩
        · exact ⟨hc2, Or.inl ⟨hx, hc1⟩⟩
    · have hk2 : (t2, v2) ≠ (t1, v1) := fun e => hk e.symm
      rw [o1 t2 v2 hk2]
      simp only [hk, ne_eq, false_and, false_or, not_false_eq_true, true_and]
      constructor
      · intro h; exact Or.inr h
      · rintro (⟨hc, hx⟩ | h)
        · rcases f1 with f | f
          · exact absurd f hc
          · exact absurd hx f
        · exact h

theorem order_prop_same (K X0 X1 P1 P2 R1 R2 : Prop) (hK : K)
    (hn : ¬ (((P1 ∧ ¬ P2) ∨ (¬ P1 ∧ P2)) ∧ X0)) :
    ((K ∧ ((X1 ∧ (¬ P1 ∨ ¬ P2)) ∨ (X0 ∧ P1 ∧ ¬ P2))) ∨ (¬ K ∧ (R1 ∨ R2))) ↔
      ((K ∧ ((X1 ∧ (¬ P2 ∨ ¬ P1)) ∨ (X0 ∧ P2 ∧ ¬ P1))) ∨ (¬ K ∧ (R2 ∨ R1))) := by
  tauto

theorem order_prop_other (K K2 A B R1 R2 : Prop) (hK : ¬ K) (hK2 : ¬ K2) :
    ((K ∧ A) ∨ (¬ K ∧ (R1 ∨ R2))) ↔ ((K2 ∧ B) ∨ (¬ K2 ∧ (R2 ∨ R1))) := by
  tauto

/-! ## Lemmas on the class walk -/

theorem loop_succ (sc : List (String × String)) (r : String) (n : Nat) (c : String) :
    isSameOrSubClassLoop sc r (n + 1) c =
      if r = c then some true
      else match mapFind sc c with
        | none => some false
        | some next => isSameOrSubClassLoop sc r n next := rfl

theorem loop_mono (sc : List (String × String)) (r : String) :
    ∀ (n : Nat) (c : String) (b : Bool), isSameOrSubClassLoop sc r n c = some b →
      ∀ m, n ≤ m → isSameOrSubClassLoop sc r m c = some b := by
  intro n
  induction n with
  | zero => intro c b h; simp [isSameOrSubClassLoop] at h
  | succ n ih =>
    intro c b h m hm
    obtain ⟨k, rfl⟩ : ∃ k, m = k + 1 := ⟨m - 1, by omega⟩
    rw [loop_succ] at h ⊢
    by_cases hr : r = c
    · simpa [hr] using h
    · simp only [hr, if_false] at h ⊢
      cases hf : mapFind sc c with
      | none => simpa [hf] using h
      | some p =>
        simp only [hf] at h ⊢
        exact ih p b h k (by omega)

theorem loop_true_iff_reaches (sc : List (String × String)) (r c : String) :
    (∃ n, isSameOrSubClassLoop sc r n c = some true) ↔ Reaches sc c r := by
  constructor
  · rintro ⟨n, h⟩
    induction n generalizing c with
    | zero => simp [isSameOrSubClassLoop] at h
    | succ n ih =>
      rw [loop_succ] at h
      by_cases hr : r = c
      · subst hr; exact Relation.ReflTransGen.refl
      · simp only [hr, if_false] at h
        cases hf : mapFind sc c with
        | none => simp [hf] at h
        | some p =>
          simp only [hf] at h
          exact Relation.ReflTransGen.head hf (ih p h)
  · intro h
    induction h using Relation.ReflTransGen.head_induction_on with
    | refl => exact ⟨1, by simp [loop_succ]⟩
    | head hl _ ih =>
      obtain ⟨n, hn⟩ := ih
      refine ⟨n + 1, ?_⟩
      rw [loop_succ]
      split
      · rfl
      · have hl2 : mapFind sc _ = some _ := hl
        simp [hl2, hn]

theorem loop_none_iff (sc : List (String × String)) (r : String) :
    ∀ (n : Nat) (c : String), isSameOrSubClassLoop sc r n c = none ↔
      ∀ i, i < n → r ≠ (superOf sc)^[i] c ∧ ∃ p, mapFind sc ((superOf sc)^[i] c) = some p := by
  intro n
  induction n with
  | zero => intro c; simp [isSameOrSubClassLoop]
  | succ n ih =>
    intro c
    rw [loop_succ]
    by_cases hr : r = c
    · simp only [hr, if_true]
      constructor
      · intro h; cases h
      · intro h; exact absurd rfl (h 0 (Nat.succ_pos n)).1
    · simp only [hr, if_false]
      cases hf : mapFind sc c with
      | none =>
        constructor
        · intro h; cases h
        · intro h
          obtain ⟨p, hp⟩ := (h 0 (Nat.succ_pos n)).2
          simp [hf] at hp
      | some p =>
        have hs : superOf sc c = p := by simp [superOf, hf]
        simp only []
        rw [ih p]
        constructor
        · intro h i hi
          cases i with
          | zero => exact ⟨hr, p, hf⟩
          | succ j =>
            rw [Function.iterate_succ_apply, hs]
            exact h j (by omega)
        · intro h i hi
          have := h (i + 1) (by omega)
          rwa [Function.iterate_succ_apply, hs] at this

theorem iterate_fold {α : Type} (g : α → α) (c : α) {i j : Nat} (hij : i < j)
    (h : g^[i] c = g^[j] c) : ∀ m, ∃ k, k < j ∧ g^[m] c = g^[k] c := by
  intro m
  induction m using Nat.strong_induction_on with
  | _ m ih =>
    by_cases hm : m < j
    · exact ⟨m, hm, rfl⟩
    · have e : g^[m] c = g^[(m - j) + i] c := by
        have h1 : m = (m - j) + j := by omega
        conv_lhs => rw [h1]
        rw [Function.iterate_add_apply, ← h, ← Function.iterate_add_apply]
      obtain ⟨k, hk, hk2⟩ := ih ((m - j) + i) (by omega)
      exact ⟨k, hk, e.trans hk2⟩

theorem exists_repeat (sc : List (String × String)) (c : String)
    (h : ∀ i, i < sc.length + 1 → ∃ p, mapFind sc ((superOf sc)^[i] c) = some p) :
    ∃ i j, i < j ∧ j < sc.length + 1 ∧ (superOf sc)^[i] c = (superOf sc)^[j] c := by
  classical
  have hcard : ((sc.map Prod.fst).toFinset).card < (Finset.range (sc.length + 1)).card := by
    have h1 := List.toFinset_card_le (sc.map Prod.fst)
    simp only [List.length_map] at h1
    simp only [Finset.card_range]
    omega
  have hmaps : ∀ i ∈ Finset.range (sc.length + 1),
      (superOf sc)^[i] c ∈ (sc.map Prod.fst).toFinset := by
    intro i hi
    obtain ⟨p, hp⟩ := h i (Finset.mem_range.mp hi)
    have := mapFind_some_mem hp
    simp only [List.mem_toFinset]
    exact List.mem_map_of_mem Prod.fst this
  obtain ⟨x, hx, y, hy, hne, heq⟩ :=
    Finset.exists_ne_map_eq_of_card_lt_of_maps_to hcard hmaps
  rcases Nat.lt_or_gt_of_ne hne with hlt | hlt
  · exact ⟨x, y, hlt, Finset.mem_range.mp hy, heq⟩
  · exact ⟨y, x, hlt, Finset.mem_range.mp hx, heq.symm⟩

theorem loop_stuck_forever (sc : List (String × String)) (r c : String)
    (h : isSameOrSubClassLoop sc r (sc.length + 1) c = none) :
    ∀ n, isSameOrSubClassLoop sc r n c = none := by
  rw [loop_none_iff] at h
  obtain ⟨i, j, hij, hj, heq⟩ := exists_repeat sc c (fun i hi => (h i hi).2)
  intro n
  rw [loop_none_iff]
  intro m _
  obtain ⟨k, hk, hk2⟩ := iterate_fold (superOf sc) c hij heq m
  rw [hk2]
  exact h k (by omega)

theorem link_chain (sc : List (String × String)) (c : String) (i : Nat) :
    ∀ j, i < j → (∀ k, k < j → ∃ p, mapFind sc ((superOf sc)^[k] c) = some p) →
      Relation.TransGen (Link sc) ((superOf sc)^[i] c) ((superOf sc)^[j] c) := by
  have step : ∀ k, (∃ p, mapFind sc ((superOf sc)^[k] c) = some p) →
      Link sc ((superOf sc)^[k] c) ((superOf sc)^[k + 1] c) := by
    rintro k ⟨p, hp⟩
    rw [Function.iterate_succ_apply']
    simp [Link, superOf, hp]
  intro j hij
  induction j with
  | zero => omega
  | succ j ih =>
    intro h
    by_cases e : i = j
    · subst e
      exact Relation.TransGen.single (step i (h i (by omega)))
    · exact Relation.TransGen.tail (ih (by omega) (fun k hk => h k (by omega)))
        (step j (h j (by omega)))

theorem isSameOrSubClass_eq_none_iff (sc : List (String × String)) (r c : String) :
    isSameOrSubClass sc r c = none ↔ ∀ n, isSameOrSubClassLoop sc r n c = none :=
  ⟨loop_stuck_forever sc r c, fun h => h _⟩

theorem isSameOrSubClass_eq_some_iff (sc : List (String × String)) (r c : String)
    (b : Bool) :
    isSameOrSubClass sc r c = some b ↔ ∃ n, isSameOrSubClassLoop sc r n c = some b := by
  constructor
  · intro h; exact ⟨_, h⟩
  · rintro ⟨n, hn⟩
    cases hres : isSameOrSubClass sc r c with
    | none =>
      have := (isSameOrSubClass_eq_none_iff sc r c).mp hres n
      rw [this] at hn; cases hn
    | some b2 =>
      have h1 := loop_mono sc r n c b hn (max n (sc.length + 1)) (le_max_left _ _)
      have h2 := loop_mono sc r (sc.length + 1) c b2 hres (max n (sc.length + 1))
        (le_max_right _ _)
      rw [h1] at h2
      exact h2.symm

theorem isSameOrSubClass_true_iff (sc : List (String × String)) (r c : String) :
    isSameOrSubClass sc r c = some true ↔ Reaches sc c r := by
  rw [isSameOrSubClass_eq_some_iff, loop_true_iff_reaches]

theorem isSameOrSubClass_ne_none (sc : List (String × String)) (hac : Acyclic sc)
    (r c : String) : isSameOrSubClass sc r c ≠ none := by
  intro h
  have h2 := (loop_none_iff sc r _ c).mp h
  obtain ⟨i, j, hij, hj, heq⟩ := exists_repeat sc c (fun i hi => (h2 i hi).2)
  have := link_chain sc c i j hij (fun k hk => (h2 k (by omega)).2)
  rw [← heq] at this
  exact hac _ this

theorem isSameOrSubClass_false_iff (sc : List (String × String)) (hac : Acyclic sc)
    (r c : String) : isSameOrSubClass sc r c = some false ↔ ¬ Reaches sc c r := by
  rw [← isSameOrSubClass_true_iff]
  have := isSameOrSubClass_ne_none sc hac r c
  cases h : isSameOrSubClass sc r c with
  | none => exact absurd h this
  | some b => cases b <;> simp

theorem acyclic_of_rank (sc : List (String × String)) (rank : String → Nat)
    (h : ∀ a b, Link sc a b → rank b < rank a) : Acyclic sc := by
  have key : ∀ a b, Relation.TransGen (Link sc) a b → rank b < rank a := by
    intro a b hab
    induction hab with
    | single h1 => exact h _ _ h1
    | tail _ h2 ih => exact lt_trans (h _ _ h2) ih
  intro c hc
  exact lt_irrefl _ (key c c hc)

theorem acyclic_nil : Acyclic [] :=
  acyclic_of_rank [] (fun _ => 0) (by intro a b h; simp [Link, mapFind_nil] at h)

theorem acyclic_derived_base : Acyclic [("Derived", "Base")] :=
  acyclic_of_rank _ (fun s => if s = "Derived" then 1 else 0) (by
    intro a b h
    simp only [Link, mapFind_cons, mapFind_nil] at h
    by_cases ha : "Derived" = a
    · subst ha
      simp at h
      subst h
      decide
    · simp [ha] at h)

theorem loop_false_end (sc : List (String × String)) (r : String) :
    ∀ (n : Nat) (c : String), isSameOrSubClassLoop sc r n c = some false →
      ∃ e, Reaches sc c e ∧ mapFind sc e = none := by
  intro n
  induction n with
  | zero => intro c h; simp [isSameOrSubClassLoop] at h
  | succ n ih =>
    intro c h
    rw [loop_succ] at h
    by_cases hr : r = c
    · simp [hr] at h
    · simp only [hr, if_false] at h
      cases hf : mapFind sc c with
      | none => exact ⟨c, Relation.ReflTransGen.refl, hf⟩
      | some p =>
        simp only [hf] at h
        obtain ⟨e, he, hn⟩ := ih p h
        exact ⟨e, Relation.ReflTransGen.head hf he, hn⟩

theorem loop_ends_of_chain_ends (sc : List (String × String)) (r c e : String)
    (h : Reaches sc c e) (hn : mapFind sc e = none) :
    ∃ n b, isSameOrSubClassLoop sc r n c = some b := by
  induction h using Relation.ReflTransGen.head_induction_on with
  | refl =>
    refine ⟨1, decide (r = e), ?_⟩
    rw [loop_succ]
    by_cases hr : r = e <;> simp [hr, hn]
  | head hl _ ih =>
    obtain ⟨n, b, hb⟩ := ih
    rename_i a p _
    by_cases hr : r = a
    · exact ⟨1, true, by rw [loop_succ]; simp [hr]⟩
    · refine ⟨n + 1, b, ?_⟩
      rw [loop_succ]
      have hl2 : mapFind sc a = some p := hl
      simp [hr, hl2, hb]

/-! ## Lemmas on usage matching -/

theorem matchOwners_eq (sc : List (String × String)) (hac : Acyclic sc) (D : String) :
    ∀ us : List String, matchOwners sc D us =
      some (decide (∃ U ∈ us, U = "id" ∨ isSameOrSubClass sc D U = some true)) := by
  intro us
  induction us with
  | nil => simp [matchOwners]
  | cons U us ih =>
    unfold matchOwners
    by_cases hid : U = "id"
    · simp [hid]
    · simp only [hid, if_false]
      have hne := isSameOrSubClass_ne_none sc hac D U
      cases hres : isSameOrSubClass sc D U with
      | none => exact absurd hres hne
      | some b =>
        cases b
        · simp [ih, hid, hres]
        · simp [hres]

theorem matchClasses_eq (sc : List (String × String)) (hac : Acyclic sc)
    (us : List String) :
    ∀ ds : List String, matchClasses sc ds us =
      some (decide (∃ D ∈ ds, ∃ U ∈ us, U = "id" ∨ isSameOrSubClass sc D U = some true)) := by
  intro ds
  induction ds with
  | nil => simp [matchClasses]
  | cons D ds ih =>
    unfold matchClasses
    rw [matchOwners_eq sc hac D us]
    by_cases h : ∃ U ∈ us, U = "id" ∨ isSameOrSubClass sc D U = some true
    · simp only [h, decide_True]
      simp only [List.mem_cons, exists_eq_or_imp, h, true_or, decide_True]
    · simp only [h, decide_False, ih]
      simp only [List.mem_cons, exists_eq_or_imp, h, false_or]

theorem matchWithClass_total (sc : List (String × String)) (hac : Acyclic sc) (d : Symbol)
    (K : SymbolType) (S : List Symbol) : ∃ b, matchWithClass sc d K S = some b := by
  cases hf : setFind S (Symbol.new K d.value) with
  | none => exact ⟨false, by simp only [matchWithClass, hf]⟩
  | some u =>
    cases hd : d.classNames with
    | none => exact ⟨false, by simp only [matchWithClass, hf, hd]⟩
    | some ds =>
      cases hu : u.classNames with
      | none => exact ⟨false, by simp only [matchWithClass, hf, hd, hu]⟩
      | some us =>
        exact ⟨_, by simp only [matchWithClass, hf, hd, hu]; exact matchClasses_eq sc hac us ds⟩

theorem matchWithClass_true_iff (sc : List (String × String)) (hac : Acyclic sc)
    (d : Symbol) (K : SymbolType) (S : List Symbol) (hS : SetWF S) :
    matchWithClass sc d K S = some true ↔ ClassAwareMatch sc d K S := by
  unfold ClassAwareMatch
  cases hf : setFind S (Symbol.new K d.value) with
  | none =>
    have hn := setFind_none_iff.mp hf
    simp only [matchWithClass, hf]
    constructor
    · intro h; simp at h
    · rintro ⟨u, hu, ht, hv, _⟩
      exfalso
      apply hn
      have : (Symbol.new K d.value).key = u.key := by
        simp [Symbol.key, Symbol.new, ht, hv]
      rw [this]
      exact List.mem_map_of_mem Symbol.key hu
  | some u0 =>
    obtain ⟨hmem, hkey⟩ := setFind_some_mem hf
    have hkey2 : u0.type = K ∧ u0.value = d.value := by
      simpa [Symbol.key, Symbol.new, Prod.ext_iff] using hkey
    have huniq : ∀ u ∈ S, u.type = K → u.value = d.value → u = u0 := by
      intro u hu ht hv
      have : setFind S (Symbol.new K d.value) = some u :=
        setFind_of_mem hS hu (by simp [Symbol.key, Symbol.new, ht, hv])
      rw [hf] at this
      exact (Option.some.inj this).symm
    cases hd : d.classNames with
    | none =>
      simp only [matchWithClass, hf, hd]
      constructor
      · intro h; simp at h
      · rintro ⟨u, _, _, _, ds, us, h1, _⟩
        cases h1
    | some ds =>
      cases hu : u0.classNames with
      | none =>
        simp only [matchWithClass, hf, hd, hu]
        constructor
        · intro h; simp at h
        · rintro ⟨u, hu1, ht, hv, ds2, us, _, h2, _⟩
          rw [huniq u hu1 ht hv, hu] at h2
          cases h2
      | some us =>
        simp only [matchWithClass, hf, hd, hu, matchClasses_eq sc hac us ds,
          Option.some.injEq, decide_eq_true_eq]
        constructor
        · intro h
          exact ⟨u0, hmem, hkey2.1, hkey2.2, ds, us, rfl, hu, h⟩
        · rintro ⟨u, hu1, ht, hv, ds2, us2, h1, h2, h3⟩
          rw [huniq u hu1 ht hv, hu] at h2
          cases h1
          cases h2
          exact h3

theorem setHas_iff (S : List Symbol) (K : SymbolType) (name : String) :
    setHas S K name = true ↔ (K, name) ∈ S.map Symbol.key := by
  unfold setHas
  cases hf : setFind S (Symbol.new K name) with
  | none =>
    have := setFind_none_iff.mp hf
    simpa [Symbol.key, Symbol.new] using this
  | some u =>
    have := setFind_some_mem hf
    simp only [Option.isSome_some, true_iff]
    have h2 : u.key = (K, name) := by simpa [Symbol.key, Symbol.new] using this.2
    rw [← h2]
    exact List.mem_map_of_mem Symbol.key this.1

theorem setHas_iff_contains (S : List Symbol) (K : SymbolType) (name : String) :
    setHas S K name = true ↔ containsUsage S K name := by
  rw [setHas_iff]
  simp [containsUsage, Symbol.key, Prod.ext_iff]

theorem setHas_congr {S S2 : List Symbol} (h : S2.map Symbol.key = S.map Symbol.key)
    (K : SymbolType) (name : String) : setHas S2 K name = setHas S K name := by
  rw [Bool.eq_iff_iff, setHas_iff, setHas_iff, h]

theorem symbolUsed_total (sc : List (String × String)) (hac : Acyclic sc) (d : Symbol)
    (S : List Symbol) : ∃ b, symbolUsed sc d S = some b := by
  obtain ⟨b1, h1⟩ := matchWithClass_total sc hac d .Method S
  obtain ⟨b2, h2⟩ := matchWithClass_total sc hac d .Property S
  obtain ⟨b3, h3⟩ := matchWithClass_total sc hac d .ProtocolConformance S
  unfold symbolUsed
  cases hd : d.type <;> simp only [h1, h2, h3, Option.some.injEq, exists_eq']
  cases b2 <;> simp

theorem anySymbolUsed_eq (sc : List (String × String)) (hac : Acyclic sc)
    (M : List Symbol) :
    ∀ H : List Symbol, anySymbolUsed sc H M =
      some (decide (∃ s ∈ H, symbolUsed sc s M = some true)) := by
  intro H
  induction H with
  | nil => simp [anySymbolUsed]
  | cons s H ih =>
    unfold anySymbolUsed
    obtain ⟨b, hb⟩ := symbolUsed_total sc hac s M
    cases b
    · simp [hb, ih]
    · simp [hb]

theorem strInsert_mem (names : List String) (c : String) : c ∈ strInsert names c := by
  unfold strInsert
  by_cases h : c ∈ names <;> simp [h]

theorem setOwners_mem {set : List Symbol} {symbol found : Symbol} (names : List String)
    (h : setFind set symbol = some found) :
    { found with classNames := some names } ∈ setOwners symbol names set := by
  induction set with
  | nil => simp [setFind_nil] at h
  | cons s set ih =>
    rw [setFind_cons] at h
    unfold setOwners
    by_cases hk : s.key = symbol.key
    · simp only [hk, if_true, Option.some.injEq] at h
      subst h
      simp [(same_iff s symbol).mpr hk]
    · simp only [hk, if_false] at h
      have : s.same symbol = false := by
        cases hs : s.same symbol
        · rfl
        · exact absurd ((same_iff s symbol).mp hs) hk
      simp only [this, Bool.false_eq_true, if_false]
      exact List.mem_cons_of_mem _ (ih h)

theorem insertSymbol_owner_mem {set set2 : List Symbol} {symbol : Symbol} {c : String}
    (hc : c ≠ "") (h : insertSymbol set symbol c = some set2) :
    ∃ e ∈ set2, e.type = symbol.type ∧ e.value = symbol.value ∧
      ∃ names, e.classNames = some names ∧ c ∈ names := by
  unfold insertSymbol at h
  simp only [hc, if_false] at h
  cases hf : setFind set symbol with
  | none =>
    simp only [hf, Option.some.injEq] at h
    have hf2 : setFind set { symbol with classNames := some (strInsert [] c) } = none := by
      rw [setFind_none_iff] at hf ⊢
      exact hf
    unfold setInsert at h
    simp only [hf2] at h
    subst h
    exact ⟨{ symbol with classNames := some (strInsert [] c) }, by simp, rfl, rfl, _, rfl,
      strInsert_mem [] c⟩
  | some found =>
    simp only [hf] at h
    cases hn : found.classNames with
    | none => simp [hn] at h
    | some names =>
      simp only [hn, Option.some.injEq] at h
      subst h
      have hk := (setFind_some_mem hf).2
      simp only [Symbol.key, Prod.mk.injEq] at hk
      exact ⟨_, setOwners_mem (strInsert names c) hf, hk.1, hk.2, _, rfl,
        strInsert_mem names c⟩

theorem insertAll_two (H mainFile x D R : String) (K U : SymbolType) (hKU : K ≠ U) :
    insertAll [] [⟨H, K, x, D⟩, ⟨mainFile, U, x, R⟩] =
      some (if H = mainFile then [(H, [freshSymbol K x D, freshSymbol U x R])]
        else [(H, [freshSymbol K x D]), (mainFile, [freshSymbol U x R])]) := by
  have h1 : ∀ (t : SymbolType) (c : String),
      insertSymbol [] (Symbol.new t x) c = some [freshSymbol t x c] := by
    intro t c
    by_cases hc : c = "" <;>
      simp [insertSymbol, setInsert, setFind_nil, strInsert, freshSymbol, Symbol.new, hc]
  have h2 : insertSymbol [freshSymbol K x D] (Symbol.new U x) R =
      some [freshSymbol K x D, freshSymbol U x R] := by
    have hf : ∀ cn, setFind [freshSymbol K x D] ⟨U, x, cn⟩ = none := by
      intro cn
      rw [setFind_cons, setFind_nil]
      simp [Symbol.key, freshSymbol, hKU]
    by_cases hc : R = ""
    · subst hc
      simp only [insertSymbol, if_true, setInsert, Symbol.new, hf]
      simp [freshSymbol]
    · simp only [insertSymbol, hc, if_false, Symbol.new, hf, setInsert]
      simp [freshSymbol, strInsert, hc]
  by_cases hH : H = mainFile
  · subst hH
    simp [insertAll, insertSymbolForFile, mapFind_nil, mapFind_cons, h1, h2, mapSet]
  · simp [insertAll, insertSymbolForFile, mapFind_nil, mapFind_cons, h1, hH]

theorem matchClasses_single (sc : List (String × String)) (D R : String)
    (h : R = "id" ∨ isSameOrSubClass sc D R = some true) :
    matchClasses sc [D] [R] = some true := by
  have : matchOwners sc D [R] = some true := by
    unfold matchOwners
    by_cases hid : R = "id"
    · simp [hid]
    · rcases h with h | h
      · exact absurd h hid
      · simp [hid, h]
  simp [matchClasses, this]

theorem anySymbolUsed_some_iff (sc : List (String × String)) (M : List Symbol) :
    ∀ (H : List Symbol) (b : Bool), anySymbolUsed sc H M = some b →
      (b = true ↔ ∃ s ∈ H, symbolUsed sc s M = some true) := by
  intro H
  induction H with
  | nil =>
    intro b h
    simp only [anySymbolUsed, Option.some.injEq] at h
    subst h
    simp
  | cons s H ih =>
    intro b h
    unfold anySymbolUsed at h
    cases hs : symbolUsed sc s M with
    | none => simp [hs] at h
    | some c =>
      cases c with
      | true =>
        simp only [hs, Option.some.injEq] at h
        subst h
        simp [hs]
      | false =>
        simp only [hs] at h
        rw [ih b h]
        simp [hs]

theorem symbolUsed_some_iff (sc : List (String × String)) (d : Symbol) (S : List Symbol)
    (b : Bool) (hb : symbolUsed sc d S = some b) : b = true ↔ tableRule sc d S := by
  obtain ⟨t, v, cn⟩ := d
  cases t <;> simp only [symbolUsed] at hb <;> simp only [tableRule]
  all_goals first
    | (simp only [Option.some.injEq] at hb; subst hb
       simp only [Bool.or_eq_true, setHas_iff_contains, Bool.false_eq_true])
    | (rw [hb]; simp)
    | skip
  cases hP : matchWithClass sc ⟨.PropertyDeclaration, v, cn⟩ .Property S with
  | none => simp [hP] at hb
  | some c =>
    cases c with
    | true =>
      simp only [hP, Option.some.injEq] at hb
      subst hb
      simp
    | false =>
      simp only [hP] at hb
      rw [hb]
      simp

theorem symbolUsed_true_iff (sc : List (String × String)) (hac : Acyclic sc) (d : Symbol)
    (S : List Symbol) : symbolUsed sc d S = some true ↔ tableRule sc d S := by
  obtain ⟨b, hb⟩ := symbolUsed_total sc hac d S
  have h := symbolUsed_some_iff sc d S b hb
  rw [hb, ← h]
  simp

theorem symbolUsed_usage_kind (sc : List (String × String)) (s : Symbol) (S : List Symbol)
    (h : isUsageKind s.type = true) : symbolUsed sc s S = some false := by
  obtain ⟨t, v, cn⟩ := s
  cases t <;> first
    | rfl
    | (simp only [isUsageKind, Bool.false_eq_true] at h)

theorem anySymbolUsed_usage_kinds (sc : List (String × String)) (M : List Symbol) :
    ∀ H : List Symbol, (∀ s ∈ H, isUsageKind s.type = true) →
      anySymbolUsed sc H M = some false := by
  intro H
  induction H with
  | nil => intro _; rfl
  | cons s H ih =>
    intro h
    unfold anySymbolUsed
    rw [symbolUsed_usage_kind sc s M (h s (List.mem_cons_self _ _))]
    exact ih (fun t ht => h t (List.mem_cons_of_mem _ ht))

theorem containsUsage_mono {M M2 : List Symbol} (hinc : UsagesIncluded M M2)
    (K : SymbolType) (name : String) (h : containsUsage M K name) :
    containsUsage M2 K name := by
  obtain ⟨u, hu, ht, hv⟩ := h
  obtain ⟨u2, hu2, ht2, hv2, _⟩ := hinc u hu
  exact ⟨u2, hu2, ht2.trans ht, hv2.trans hv⟩

theorem matchWithClass_mono (sc : List (String × String)) (hac : Acyclic sc)
    {M M2 : List Symbol} (hM : SetWF M) (hM2 : SetWF M2) (hinc : UsagesIncluded M M2)
    (d : Symbol) (K : SymbolType) (h : matchWithClass sc d K M = some true) :
    matchWithClass sc d K M2 = some true := by
  rw [matchWithClass_true_iff sc hac d K M hM] at h
  rw [matchWithClass_true_iff sc hac d K M2 hM2]
  obtain ⟨u, hu, ht, hv, ds, us, hd, hus, D, hD, U, hU, hrel⟩ := h
  obtain ⟨u2, hu2, ht2, hv2, hown⟩ := hinc u hu
  obtain ⟨us2, hus2, hsub⟩ := hown us hus
  exact ⟨u2, hu2, ht2.trans ht, hv2.trans hv, ds, us2, hd, hus2, D, hD, U, hsub U hU, hrel⟩

theorem tableRule_mono (sc : List (String × String)) (hac : Acyclic sc)
    {M M2 : List Symbol} (hM : SetWF M) (hM2 : SetWF M2) (hinc : UsagesIncluded M M2)
    (d : Symbol) (h : tableRule sc d M) : tableRule sc d M2 := by
  obtain ⟨t, v, cn⟩ := d
  cases t <;> simp only [tableRule] at h ⊢
  all_goals first
    | exact containsUsage_mono hinc _ _ h
    | exact h.imp (containsUsage_mono hinc _ _) (containsUsage_mono hinc _ _)
    | exact matchWithClass_mono sc hac hM hM2 hinc _ _ h
    | exact h.imp (matchWithClass_mono sc hac hM hM2 hinc _ _)
        (matchWithClass_mono sc hac hM hM2 hinc _ _)

/-! ## Lemmas on the report loop -/

theorem mapFind_append_ne {β : Type} (m : List (String × β)) (k k2 : String) (v : β)
    (h : k2 ≠ k) : mapFind (m ++ [(k, v)]) k2 = mapFind m k2 := by
  induction m with
  | nil => simp [mapFind_cons, mapFind_nil, h.symm]
  | cons p m ih =>
    rw [List.cons_append, mapFind_cons, mapFind_cons, ih]

theorem mapIndex_fst (m : List (String × Nat)) (k : String) :
    (mapIndex m k).1 = (mapFind m k).getD 0 := by
  unfold mapIndex
  cases mapFind m k <;> rfl

theorem mapIndex_snd_find (m : List (String × Nat)) (k k2 : String) (h : k2 ≠ k) :
    mapFind (mapIndex m k).2 k2 = mapFind m k2 := by
  unfold mapIndex
  cases mapFind m k with
  | none => exact mapFind_append_ne m k k2 0 h
  | some v => rfl

theorem guard_skip : ∀ a b : Bool, (!a && !b) = true → (a || b) = false := by decide

theorem guard_keep : ∀ a b : Bool, ¬ (!a && !b) = true → (a || b) = true := by decide

theorem reportLoop_cases (sc : List (String × String)) (file : String)
    (mainSymbols : List Symbol) (mods : List String) (ln0 : List (String × Nat)) :
    ∀ (entries : List (String × List Symbol)), (entries.map Prod.fst).Nodup →
      ∀ (ln : List (String × Nat)) (out : List String),
        (∀ k ∈ entries.map Prod.fst, mapFind ln k = mapFind ln0 k) →
        (reportLoop sc file mainSymbols mods entries ln out = none ∧
          ∃ p ∈ entries, anySymbolUsed sc p.2 mainSymbols = none) ∨
        ∃ ln2, reportLoop sc file mainSymbols mods entries ln out =
          some (ln2, out ++ (entries.filter (fun p =>
            (hasEnding p.1 ".h" || decide (p.1 ∈ mods)) &&
              (anySymbolUsed sc p.2 mainSymbols == some false))).map
            (fun p => warningLine file ((mapFind ln0 p.1).getD 0) p.1)) := by
  intro entries
  induction entries with
  | nil => intro _ ln out _; exact Or.inr ⟨ln, by simp [reportLoop]⟩
  | cons p rest ih =>
    intro hnd ln out hln
    have hnd2 : p.1 ∉ rest.map Prod.fst ∧ (rest.map Prod.fst).Nodup := by
      simpa [List.nodup_cons] using hnd
    have hrest : ∀ k ∈ rest.map Prod.fst, mapFind ln k = mapFind ln0 k := by
      intro k hk
      exact hln k (by simp only [List.map_cons, List.mem_cons]; exact Or.inr hk)
    have lift : ∀ (ln1 : List (String × Nat)) (out1 : List String),
        (reportLoop sc file mainSymbols mods rest ln1 out1 = none ∧
          ∃ q ∈ rest, anySymbolUsed sc q.2 mainSymbols = none) →
        reportLoop sc file mainSymbols mods rest ln1 out1 = none ∧
          ∃ q ∈ p :: rest, anySymbolUsed sc q.2 mainSymbols = none := by
      rintro ln1 out1 ⟨h1, q, hq, hq2⟩
      exact ⟨h1, q, List.mem_cons_of_mem _ hq, hq2⟩
    unfold reportLoop
    by_cases hg : (!hasEnding p.1 ".h" && !decide (p.1 ∈ mods)) = true
    · have hc : (hasEnding p.1 ".h" || decide (p.1 ∈ mods)) = false :=
        guard_skip _ _ hg
      rw [if_pos hg]
      rcases ih hnd2.2 ln out hrest with h2 | ⟨ln2, h2⟩
      · exact Or.inl (lift _ _ h2)
      · refine Or.inr ⟨ln2, ?_⟩
        rw [h2, List.filter_cons]
        simp [hc]
    · have hc : (hasEnding p.1 ".h" || decide (p.1 ∈ mods)) = true :=
        guard_keep _ _ hg
      rw [if_neg hg]
      cases hany : anySymbolUsed sc p.2 mainSymbols with
      | none => exact Or.inl ⟨rfl, p, List.mem_cons_self _ _, hany⟩
      | some b =>
        cases b with
        | true =>
          rcases ih hnd2.2 ln out hrest with h2 | ⟨ln2, h2⟩
          · exact Or.inl (lift _ _ h2)
          · refine Or.inr ⟨ln2, ?_⟩
            simp only [h2, List.filter_cons, hc, hany]
            simp
        | false =>
          have hline : (mapIndex ln p.1).1 = (mapFind ln0 p.1).getD 0 := by
            rw [mapIndex_fst, hln p.1 (by simp)]
          have hrest2 : ∀ k ∈ rest.map Prod.fst,
              mapFind (mapIndex ln p.1).2 k = mapFind ln0 k := by
            intro k hk
            have hne : k ≠ p.1 := by
              intro e; exact hnd2.1 (e ▸ hk)
            rw [mapIndex_snd_find ln p.1 k hne]
            exact hrest k hk
          rcases ih hnd2.2 (mapIndex ln p.1).2
            (out ++ [warningLine file (mapIndex ln p.1).1 p.1]) hrest2 with h2 | ⟨ln2, h2⟩
          · exact Or.inl (lift _ _ h2)
          · refine Or.inr ⟨ln2, ?_⟩
            rw [hline] at h2
            simp only [hline, h2, List.filter_cons, hc, hany]
            simp

theorem symbolsOf_of_mem {table : List (String × List Symbol)}
    (hwf : (table.map Prod.fst).Nodup) {p : String × List Symbol} (hp : p ∈ table) :
    symbolsOf table p.1 = p.2 := by
  unfold symbolsOf
  rw [mapFind_of_mem hwf (show (p.1, p.2) ∈ table from hp)]

theorem main_cases (result : Int) (file : String) (a : Analysis)
    (hwf : (a.symbolsForFile.map Prod.fst).Nodup) :
    (main result file a = none ∧
      ∃ p ∈ a.symbolsForFile,
        anySymbolUsed a.superClass p.2 (symbolsOf a.symbolsForFile file) = none) ∨
    main result file a = some ((unusedScopes a file).map
      (fun k => warningLine file ((mapFind a.lineNumbers k).getD 0) k), result) := by
  have hmain : main result file a =
      match reportLoop a.superClass file (symbolsOf a.symbolsForFile file) a.modulesImported
        a.symbolsForFile a.lineNumbers [] with
      | none => none
      | some r => some (r.2, result) := rfl
  have hfilter : a.symbolsForFile.filter (fun p =>
        (hasEnding p.1 ".h" || decide (p.1 ∈ a.modulesImported)) &&
          (anySymbolUsed a.superClass p.2 (symbolsOf a.symbolsForFile file) == some false)) =
      a.symbolsForFile.filter ((fun k =>
        (hasEnding k ".h" || decide (k ∈ a.modulesImported)) &&
          (anySymbolUsed a.superClass (symbolsOf a.symbolsForFile k)
            (symbolsOf a.symbolsForFile file) == some false)) ∘ Prod.fst) := by
    apply List.filter_congr
    intro p hp
    simp only [Function.comp, symbolsOf_of_mem hwf hp]
  rcases reportLoop_cases a.superClass file (symbolsOf a.symbolsForFile file)
    a.modulesImported a.lineNumbers a.symbolsForFile hwf a.lineNumbers [] (fun _ _ => rfl)
    with ⟨h, hp⟩ | ⟨ln2, h⟩
  · exact Or.inl ⟨by rw [hmain, h], hp⟩
  · right
    rw [hmain, h]
    simp only [unusedScopes, List.nil_append, List.filter_map, List.map_map,
      Option.some.injEq, Prod.mk.injEq, and_true]
    rw [hfilter]
    rfl

theorem main_some_eq (result : Int) (file : String) (a : Analysis)
    (hwf : (a.symbolsForFile.map Prod.fst).Nodup) (r : List String × Int)
    (h : main result file a = some r) :
    r = ((unusedScopes a file).map
      (fun k => warningLine file ((mapFind a.lineNumbers k).getD 0) k), result) := by
  rcases main_cases result file a hwf with ⟨h1, _⟩ | h1
  · rw [h1] at h; cases h
  · rw [h1] at h; exact (Option.some.inj h).symm

theorem main_total (result : Int) (file : String) (a : Analysis)
    (hwf : (a.symbolsForFile.map Prod.fst).Nodup) (hac : Acyclic a.superClass) :
    main result file a = some ((unusedScopes a file).map
      (fun k => warningLine file ((mapFind a.lineNumbers k).getD 0) k), result) := by
  rcases main_cases result file a hwf with ⟨_, p, _, hp⟩ | h1
  · rw [anySymbolUsed_eq a.superClass hac] at hp
    cases hp
  · exact h1

theorem mem_unusedScopes (a : Analysis) (file k : String) :
    k ∈ unusedScopes a file ↔
      k ∈ a.symbolsForFile.map Prod.fst ∧
        (hasEnding k ".h" = true ∨ k ∈ a.modulesImported) ∧
        anySymbolUsed a.superClass (symbolsOf a.symbolsForFile k)
          (symbolsOf a.symbolsForFile file) = some false := by
  unfold unusedScopes
  rw [List.mem_filter]
  simp only [Bool.and_eq_true, Bool.or_eq_true, decide_eq_true_eq, beq_iff_eq]

/-! ## C1: the lines of the report -/

/-- C1: for every final state whose symbol table lists each scope once, whenever `main`
returns, the lines it wrote are exactly one line per scope key k of the table, in table
order, such that (k ends with ".h" or k is an imported module) and
`anySymbolUsed(symbols of k, symbols of the main file)` is false; the line is
"file:line: warning: Unused import k" with the line recorded for k (0 when none is recorded),
and the exit code is the front-end's. On an acyclic class index `main` does return. -/
theorem C1_report_lines (result : Int) (file : String) (a : Analysis)
    (hwf : (a.symbolsForFile.map Prod.fst).Nodup) :
    (∀ r, main result file a = some r →
      r = (((a.symbolsForFile.map Prod.fst).filter (fun k =>
          (hasEnding k ".h" || decide (k ∈ a.modulesImported)) &&
            (anySymbolUsed a.superClass (symbolsOf a.symbolsForFile k)
              (symbolsOf a.symbolsForFile file) == some false))).map
        (fun k => file ++ ":" ++ toString ((mapFind a.lineNumbers k).getD 0) ++
          ": warning: Unused import " ++ k), result)) ∧
    (Acyclic a.superClass → ∃ r, main result file a = some r) := by
  have hmain : main result file a =
      match reportLoop a.superClass file (symbolsOf a.symbolsForFile file) a.modulesImported
        a.symbolsForFile a.lineNumbers [] with
      | none => none
      | some r => some (r.2, result) := rfl
  have hfilter : a.symbolsForFile.filter (fun p =>
        (hasEnding p.1 ".h" || decide (p.1 ∈ a.modulesImported)) &&
          (anySymbolUsed a.superClass p.2 (symbolsOf a.symbolsForFile file) == some false)) =
      a.symbolsForFile.filter ((fun k =>
        (hasEnding k ".h" || decide (k ∈ a.modulesImported)) &&
          (anySymbolUsed a.superClass (symbolsOf a.symbolsForFile k)
            (symbolsOf a.symbolsForFile file) == some false)) ∘ Prod.fst) := by
    apply List.filter_congr
    intro p hp
    simp only [Function.comp, symbolsOf_of_mem hwf hp]
  rcases reportLoop_cases a.superClass file (symbolsOf a.symbolsForFile file)
    a.modulesImported a.lineNumbers a.symbolsForFile hwf a.lineNumbers [] (fun _ _ => rfl)
    with ⟨h, p, _, hp⟩ | ⟨ln2, h⟩
  · refine ⟨?_, ?_⟩
    · intro r hr
      rw [hmain, h] at hr
      cases hr
    · intro hac
      rw [anySymbolUsed_eq a.superClass hac] at hp
      cases hp
  · have hres : main result file a = some
        (((a.symbolsForFile.map Prod.fst).filter (fun k =>
            (hasEnding k ".h" || decide (k ∈ a.modulesImported)) &&
              (anySymbolUsed a.superClass (symbolsOf a.symbolsForFile k)
                (symbolsOf a.symbolsForFile file) == some false))).map
          (fun k => file ++ ":" ++ toString ((mapFind a.lineNumbers k).getD 0) ++
            ": warning: Unused import " ++ k), result) := by
      rw [hmain, h]
      simp only [List.nil_append, List.filter_map, List.map_map, Option.some.injEq,
        Prod.mk.injEq, and_true]
      rw [hfilter]
      rfl
    refine ⟨?_, fun _ => ⟨_, hres⟩⟩
    intro r hr
    rw [hres] at hr
    exact (Option.some.inj hr).symm

/-- C1 on the sample state: A.h and Base.h are used (Base.h through Derived -> Base), the
unused header B.h and the unused imported module Kit get one line each, and the scope Other
(no header suffix, not imported) gets none. -/
theorem C1_report_lines_witness :
    Acyclic sampleAnalysis.superClass ∧
    (sampleAnalysis.symbolsForFile.map Prod.fst).Nodup ∧
    main 0 "main.m" sampleAnalysis =
      some (["main.m:2: warning: Unused import B.h",
             "main.m:4: warning: Unused import Kit"], 0) :=
  ⟨acyclic_derived_base, by decide,
   by
    obtain ⟨r, hr⟩ := (C1_report_lines 0 "main.m" sampleAnalysis (by decide)).2
      acyclic_derived_base
    rw [hr, (C1_report_lines 0 "main.m" sampleAnalysis (by decide)).1 r hr]
    decide⟩

/-! ## C2: the policy table -/

/-- C2: `symbolUsed(d, S)` follows the row of the section 4.3 table for the kind of d:
whenever it returns, its value is that of the table rule; it returns on every acyclic class
index; and for the plain rows it returns on every class index, with the same result for any
other owner sets on d and on the entries of S. -/
theorem C2_symbolUsed_follows_table (superClass : List (String × String)) (d : Symbol)
    (S : List Symbol) :
    (∀ b, symbolUsed superClass d S = some b → (b = true ↔ tableRule superClass d S)) ∧
    (Acyclic superClass → ∃ b, symbolUsed superClass d S = some b) ∧
    (isPlainDeclaration d.type = true →
      (∃ b, symbolUsed superClass d S = some b) ∧
      ∀ (d2 : Symbol) (S2 : List Symbol), d2.type = d.type → d2.value = d.value →
        S2.map Symbol.key = S.map Symbol.key →
        symbolUsed superClass d2 S2 = symbolUsed superClass d S) := by
  refine ⟨?_, fun hac => symbolUsed_total superClass hac d S, fun hp => ⟨?_, ?_⟩⟩
  · obtain ⟨t, v, cn⟩ := d
    intro b hb
    cases t <;> simp only [symbolUsed] at hb <;> simp only [tableRule]
    all_goals first
      | (simp only [Option.some.injEq] at hb; subst hb
         simp only [Bool.or_eq_true, setHas_iff_contains, Bool.false_eq_true])
      | (rw [hb]; simp)
      | skip
    cases hP : matchWithClass superClass ⟨.PropertyDeclaration, v, cn⟩ .Property S with
    | none => simp [hP] at hb
    | some c =>
      cases c with
      | true =>
        simp only [hP, Option.some.injEq] at hb
        subst hb
        simp
      | false =>
        simp only [hP] at hb
        rw [hb]
        simp
  · obtain ⟨t, v, cn⟩ := d
    cases t <;>
      first
      | (simp only [isPlainDeclaration, Bool.false_eq_true] at hp; done)
      | exact ⟨_, rfl⟩
  · obtain ⟨t, v, cn⟩ := d
    intro d2 S2 ht hv hk
    obtain ⟨t2, v2, cn2⟩ := d2
    simp only at ht hv
    subst ht hv
    cases t2 <;>
      first
      | (simp only [isPlainDeclaration, Bool.false_eq_true] at hp; done)
      | simp only [symbolUsed, setHas_congr hk]

/-- C2 on the index Derived -> Base: a class declaration is used through a Type usage of its
name, whatever owners are attached, and a property declared on Base is used through a Method
usage of its name on a Derived. -/
theorem C2_symbolUsed_follows_table_witness :
    Acyclic [("Derived", "Base")] ∧
    isPlainDeclaration SymbolType.ClassDeclaration = true ∧
    symbolUsed [("Derived", "Base")] (Symbol.new .ClassDeclaration "A")
      [⟨.Type_, "A", some ["X"]⟩] = some true ∧
    symbolUsed [("Derived", "Base")] ⟨.ClassDeclaration, "A", some ["Y"]⟩
      [Symbol.new .Type_ "A"] = some true ∧
    tableRule [("Derived", "Base")] ⟨.PropertyDeclaration, "p", some ["Base"]⟩
      [⟨.Method, "p", some ["Derived"]⟩] :=
  ⟨acyclic_derived_base, rfl, by decide,
   ((C2_symbolUsed_follows_table [("Derived", "Base")] (Symbol.new .ClassDeclaration "A")
      [⟨.Type_, "A", some ["X"]⟩]).2.2 rfl).2 ⟨.ClassDeclaration, "A", some ["Y"]⟩
      [Symbol.new .Type_ "A"] rfl rfl rfl ▸ (by decide),
   ((C2_symbolUsed_follows_table [("Derived", "Base")]
      ⟨.PropertyDeclaration, "p", some ["Base"]⟩ [⟨.Method, "p", some ["Derived"]⟩]).1
      true (by decide)).mp rfl⟩

/-! ## C3: class-aware match -/

/-- C3: on an acyclic class index and a usage set S without duplicates, `matchWithClass(d, K,
S)` returns, and it returns true exactly when S has an entry u of kind K with the name of d
and some owner D of d and some owner U of u satisfy U = "id" or `isSameOrSubClass(D, U)`;
it returns false when d has no owner set, and when the entry of S has none. -/
theorem C3_matchWithClass_existential (superClass : List (String × String))
    (hac : Acyclic superClass) (d : Symbol) (K : SymbolType) (S : List Symbol)
    (hS : (S.map Symbol.key).Nodup) :
    (∃ b, matchWithClass superClass d K S = some b) ∧
    (matchWithClass superClass d K S = some true ↔
      ∃ u ∈ S, u.type = K ∧ u.value = d.value ∧
        ∃ ds us, d.classNames = some ds ∧ u.classNames = some us ∧
          ∃ D ∈ ds, ∃ U ∈ us, U = "id" ∨ isSameOrSubClass superClass D U = some true) ∧
    (d.classNames = none → matchWithClass superClass d K S = some false) ∧
    (∀ u ∈ S, u.type = K → u.value = d.value → u.classNames = none →
      matchWithClass superClass d K S = some false) := by
  have htot := matchWithClass_total superClass hac d K S
  have hiff := matchWithClass_true_iff superClass hac d K S hS
  have hfalse : ¬ ClassAwareMatch superClass d K S →
      matchWithClass superClass d K S = some false := by
    intro hn
    obtain ⟨b, hb⟩ := htot
    cases b
    · exact hb
    · exact absurd (hiff.mp hb) hn
  refine ⟨htot, hiff, ?_, ?_⟩
  · intro hd
    apply hfalse
    rintro ⟨u, _, _, _, ds, us, h1, _⟩
    rw [hd] at h1
    cases h1
  · intro u hu ht hv hnone
    apply hfalse
    rintro ⟨u2, hu2, ht2, hv2, ds, us, _, h2, _⟩
    have e : u2 = u := by
      have hk : u2.key = u.key := by simp [Symbol.key, ht, hv, ht2, hv2]
      have h3 : setFind S u = some u2 := setFind_of_mem hS hu2 hk
      have h4 : setFind S u = some u := setFind_of_mem hS hu rfl
      rw [h3] at h4
      exact Option.some.inj h4
    rw [e, hnone] at h2
    cases h2

/-- C3 on the index Derived -> Base: a method declared on Base and called on a Derived
matches through the second usage owner, and does not match a call on an Unrelated. -/
theorem C3_matchWithClass_existential_witness :
    Acyclic [("Derived", "Base")] ∧
    matchWithClass [("Derived", "Base")] ⟨.MethodDeclaration, "foo", some ["Other", "Base"]⟩
      .Method [Symbol.new .Type_ "foo", ⟨.Method, "foo", some ["Unrelated", "Derived"]⟩] =
        some true ∧
    matchWithClass [("Derived", "Base")] ⟨.MethodDeclaration, "foo", some ["Other", "Base"]⟩
      .Method [Symbol.new .Type_ "foo", ⟨.Method, "foo", some ["Unrelated"]⟩] = some false ∧
    (∃ u ∈ [Symbol.new .Type_ "foo", ⟨.Method, "foo", some ["Unrelated", "Derived"]⟩],
      u.type = .Method ∧ u.value = "foo" ∧
        ∃ ds us, some ["Other", "Base"] = some ds ∧ u.classNames = some us ∧
          ∃ D ∈ ds, ∃ U ∈ us, U = "id" ∨
            isSameOrSubClass [("Derived", "Base")] D U = some true) :=
  ⟨acyclic_derived_base, by decide, by decide,
   (C3_matchWithClass_existential [("Derived", "Base")] acyclic_derived_base
      ⟨.MethodDeclaration, "foo", some ["Other", "Base"]⟩ .Method
      [Symbol.new .Type_ "foo", ⟨.Method, "foo", some ["Unrelated", "Derived"]⟩]
      (by decide)).2.1.mp (by decide)⟩

/-! ## C4: one used symbol is enough -/

/-- C4: whenever `anySymbolUsed(H, M)` returns, it is true exactly when some symbol of H has
`symbolUsed(s, M)` true; it is false for the empty H; and on an acyclic class index it
returns, so that one used symbol makes it true whatever the other symbols of H are. -/
theorem C4_anySymbolUsed_iff_exists (superClass : List (String × String))
    (H M : List Symbol) :
    (∀ b, anySymbolUsed superClass H M = some b →
      (b = true ↔ ∃ s ∈ H, symbolUsed superClass s M = some true)) ∧
    anySymbolUsed superClass [] M = some false ∧
    (Acyclic superClass →
      anySymbolUsed superClass H M =
        some (decide (∃ s ∈ H, symbolUsed superClass s M = some true)) ∧
      ∀ (H1 H2 : List Symbol) (s : Symbol), symbolUsed superClass s M = some true →
        anySymbolUsed superClass (H1 ++ s :: H2) M = some true) := by
  refine ⟨anySymbolUsed_some_iff superClass M H, rfl, fun hac => ?_⟩
  refine ⟨anySymbolUsed_eq superClass hac M H, ?_⟩
  intro H1 H2 s hs
  rw [anySymbolUsed_eq superClass hac M]
  have : ∃ t ∈ H1 ++ s :: H2, symbolUsed superClass t M = some true :=
    ⟨s, by simp, hs⟩
  simp only [this, decide_True]

/-- C4 on the index Derived -> Base: a header with two unused declarations and one used
declaration is used; with the used one removed it is not. -/
theorem C4_anySymbolUsed_iff_exists_witness :
    Acyclic [("Derived", "Base")] ∧
    anySymbolUsed [("Derived", "Base")]
      [Symbol.new .ClassDeclaration "B", ⟨.MethodDeclaration, "bar", some ["B"]⟩,
        Symbol.new .FunctionDeclaration "f"]
      [Symbol.new .Function "f", Symbol.new .Type_ "A"] = some true ∧
    anySymbolUsed [("Derived", "Base")]
      [Symbol.new .ClassDeclaration "B", ⟨.MethodDeclaration, "bar", some ["B"]⟩]
      [Symbol.new .Function "f", Symbol.new .Type_ "A"] = some false :=
  ⟨acyclic_derived_base,
   ((C4_anySymbolUsed_iff_exists [("Derived", "Base")] []
      [Symbol.new .Function "f", Symbol.new .Type_ "A"]).2.2 acyclic_derived_base).2
     [Symbol.new .ClassDeclaration "B", ⟨.MethodDeclaration, "bar", some ["B"]⟩] []
     (Symbol.new .FunctionDeclaration "f") (by decide),
   by decide⟩

/-! ## C5: what `isSameOrSubClass` decides on an acyclic index -/

/-- C5: on an acyclic class-hierarchy index `isSameOrSubClass(reference, candidate)` returns,
and it returns true exactly when `reference` is `candidate` or is reached from `candidate`
through zero or more superclass links; otherwise (the chain ends at a class absent from the
index without meeting `reference`) it returns false. -/
theorem C5_isSameOrSubClass_iff_reaches (superClass : List (String × String))
    (hac : Acyclic superClass) (reference candidate : String) :
    (isSameOrSubClass superClass reference candidate = some true ↔
        Reaches superClass candidate reference) ∧
    (isSameOrSubClass superClass reference candidate = some false ↔
        ¬ Reaches superClass candidate reference) :=
  ⟨isSameOrSubClass_true_iff superClass reference candidate,
   isSameOrSubClass_false_iff superClass hac reference candidate⟩

/-- C5 at the index Derived -> Base: Base is the same class as, or a superclass of, Derived,
and Derived is neither for Base. -/
theorem C5_isSameOrSubClass_iff_reaches_witness :
    Acyclic [("Derived", "Base")] ∧
    isSameOrSubClass [("Derived", "Base")] "Base" "Derived" = some true ∧
    isSameOrSubClass [("Derived", "Base")] "Derived" "Base" = some false ∧
    Reaches [("Derived", "Base")] "Derived" "Base" ∧
    ¬ Reaches [("Derived", "Base")] "Base" "Derived" :=
  ⟨acyclic_derived_base, by decide, by decide,
   (C5_isSameOrSubClass_iff_reaches _ acyclic_derived_base "Base" "Derived").1.mp (by decide),
   (C5_isSameOrSubClass_iff_reaches _ acyclic_derived_base "Derived" "Base").2.mp (by decide)⟩

/-! ## C6: termination of `isSameOrSubClass` -/

/-- C6 fails on the index A -> B -> A: the walk for reference C from candidate A never
leaves the loop, whatever number of iterations it is given. -/
theorem C6_cyclic_walk_never_returns :
    ¬ ∃ n b, isSameOrSubClassLoop [("A", "B"), ("B", "A")] "C" n "A" = some b := by
  rintro ⟨n, b, h⟩
  have h1 := (isSameOrSubClass_eq_some_iff _ "C" "A" b).mpr ⟨n, h⟩
  have h2 : isSameOrSubClass [("A", "B"), ("B", "A")] "C" "A" = none := by decide
  rw [h2] at h1
  cases h1

/-- C6 as amended: the loop of `isSameOrSubClass(reference, candidate)` ends with a boolean
exactly when the superclass chain from `candidate` meets `reference` or ends at a class
absent from the index; on an acyclic index it always does. -/
theorem C6_isSameOrSubClass_terminates_iff (superClass : List (String × String))
    (reference candidate : String) :
    ((∃ n b, isSameOrSubClassLoop superClass reference n candidate = some b) ↔
      (Reaches superClass candidate reference ∨
        ∃ e, Reaches superClass candidate e ∧ mapFind superClass e = none)) ∧
    (Acyclic superClass → ∃ b, isSameOrSubClass superClass reference candidate = some b) := by
  refine ⟨⟨?_, ?_⟩, ?_⟩
  · rintro ⟨n, b, h⟩
    cases b with
    | true => exact Or.inl ((loop_true_iff_reaches _ _ _).mp ⟨n, h⟩)
    | false => exact Or.inr (loop_false_end _ _ n _ h)
  · rintro (h | ⟨e, he, hn⟩)
    · obtain ⟨n, hn⟩ := (loop_true_iff_reaches _ _ _).mpr h
      exact ⟨n, true, hn⟩
    · exact loop_ends_of_chain_ends _ _ _ e he hn
  · intro hac
    have := isSameOrSubClass_ne_none superClass hac reference candidate
    cases h : isSameOrSubClass superClass reference candidate with
    | none => exact absurd h this
    | some b => exact ⟨b, rfl⟩

/-- C6 as amended, at the acyclic index Derived -> Base: the walk for reference Unrelated
from candidate Derived returns (false). -/
theorem C6_isSameOrSubClass_terminates_iff_witness :
    Acyclic [("Derived", "Base")] ∧
    (∃ b, isSameOrSubClass [("Derived", "Base")] "Unrelated" "Derived" = some b) ∧
    isSameOrSubClass [("Derived", "Base")] "Unrelated" "Derived" = some false :=
  ⟨acyclic_derived_base,
   (C6_isSameOrSubClass_terminates_iff _ "Unrelated" "Derived").2 acyclic_derived_base,
   by decide⟩

/-! ## C7: owner accumulation in `insertSymbol` -/

/-- C7 fails on an entry that was inserted without an owner: its owner pointer is null, and
the insert with owner Foo dereferences it, so there is no resulting set in which the owners
are {Foo}. The owner class of a usage is `qualTypeSimple` of the type text the front-end
prints, which is the empty string for a text such as "id<>"; two Method(foo) usages whose
receiver texts give "" and then "Foo" are this input. -/
theorem C7_insertSymbol_owner_after_ownerless :
    insertSymbol [] (Symbol.new .Method "foo") "" = some [Symbol.new .Method "foo"] ∧
    insertSymbol [Symbol.new .Method "foo"] (Symbol.new .Method "foo") "Foo" = none ∧
    qualTypeSimple "id<>" = "" ∧
    qualTypeSimple "Foo *" = "Foo" ∧
    insertAll [] [⟨"main.m", .Method, "foo", qualTypeSimple "id<>"⟩,
      ⟨"main.m", .Method, "foo", qualTypeSimple "Foo *"⟩] = none := by
  decide

/-- C7 as amended: on a set without duplicates, for a non-empty owner class c and a
(kind, name) whose entry, if the set has one, has an owner set: `insertSymbol` returns a set
with exactly one entry for (kind, name), whose owners are the previous owners (none when
there was no entry) together with c, and every other entry is as before; hence inserting
the owners c1..cn (n >= 1, all non-empty) of a (kind, name) the set does not hold yields the
owners {c1..cn}. On an entry whose owner pointer is null the call has no result. -/
theorem C7_insertSymbol_accumulates_owners (set : List Symbol) (symbol : Symbol)
    (hwf : (set.map Symbol.key).Nodup) :
    (∀ c, c ≠ "" → ownersOf set symbol.type symbol.value ≠ some none →
      ∃ set2 e os, insertSymbol set symbol c = some set2 ∧
        e ∈ set2 ∧ e.type = symbol.type ∧ e.value = symbol.value ∧
        (∀ e2 ∈ set2, e2.type = symbol.type → e2.value = symbol.value → e2 = e) ∧
        e.classNames = some os ∧
        (∀ x, x ∈ os ↔ x ∈ previousOwners set symbol.type symbol.value ∨ x = c) ∧
        (∀ s : Symbol, ¬ (s.type = symbol.type ∧ s.value = symbol.value) →
          (s ∈ set2 ↔ s ∈ set))) ∧
    (∀ cs : List String, cs ≠ [] → (∀ x ∈ cs, x ≠ "") →
      ownersOf set symbol.type symbol.value = none →
      ∃ set2 e os, insertEach symbol set cs = some set2 ∧
        e ∈ set2 ∧ e.type = symbol.type ∧ e.value = symbol.value ∧
        (∀ e2 ∈ set2, e2.type = symbol.type → e2.value = symbol.value → e2 = e) ∧
        e.classNames = some os ∧
        (∀ x, x ∈ os ↔ x ∈ cs) ∧
        (∀ s : Symbol, ¬ (s.type = symbol.type ∧ s.value = symbol.value) →
          (s ∈ set2 ↔ s ∈ set))) ∧
    (∀ c, c ≠ "" → ownersOf set symbol.type symbol.value = some none →
      insertSymbol set symbol c = none) := by
  have hkey : ∀ s : Symbol, ¬ (s.type = symbol.type ∧ s.value = symbol.value) →
      s.key ≠ symbol.key := by
    intro s hs e
    apply hs
    simpa [Symbol.key, Prod.ext_iff] using e
  refine ⟨?_, ?_, ?_⟩
  · intro c hc hown
    obtain ⟨set2, os, h1, ho, hmem⟩ := insertSymbol_owner_step symbol hc hown
    obtain ⟨e, he, het, hev, hec⟩ := ownersOf_some_mem ho
    have hwf2 : SetWF set2 := insertSymbol_keys_nodup hwf h1
    refine ⟨set2, e, os, h1, he, het, hev, ?_, hec, hmem, ?_⟩
    · intro e2 he2 ht2 hv2
      exact key_unique hwf2 he2 he (by simp [Symbol.key, ht2, hv2, het, hev])
    · intro s hs
      exact insertSymbol_mem_other h1 s (hkey s hs)
  · intro cs hcs hne hnone
    obtain ⟨set2, h1, hwf2, hoth, hos⟩ := insertEach_owners symbol cs set hwf hne
      (by rw [hnone]; simp)
    obtain ⟨os, ho, hmem⟩ := hos hcs
    obtain ⟨e, he, het, hev, hec⟩ := ownersOf_some_mem ho
    refine ⟨set2, e, os, h1, he, het, hev, ?_, hec, ?_, ?_⟩
    · intro e2 he2 ht2 hv2
      exact key_unique hwf2 he2 he (by simp [Symbol.key, ht2, hv2, het, hev])
    · intro x
      rw [hmem x]
      simp [previousOwners, hnone]
    · intro s hs
      exact hoth s (hkey s hs)
  · intro c hc hnull
    exact (insertSymbol_none_iff_owners set symbol c).mpr ⟨hc, hnull⟩

/-- C7 as amended, on a set that holds ClassDeclaration(X) and MethodDeclaration(foo) owned
by A: the owner B is added to the entry, and the owners A, B, A inserted for the new
MethodDeclaration(bar) give {A, B}. -/
theorem C7_insertSymbol_accumulates_owners_witness :
    insertSymbol [Symbol.new .ClassDeclaration "X", ⟨.MethodDeclaration, "foo", some ["A"]⟩]
      (Symbol.new .MethodDeclaration "foo") "B" =
      some [Symbol.new .ClassDeclaration "X",
        ⟨.MethodDeclaration, "foo", some ["A", "B"]⟩] ∧
    insertEach (Symbol.new .MethodDeclaration "bar")
      [Symbol.new .ClassDeclaration "X", ⟨.MethodDeclaration, "foo", some ["A"]⟩]
      ["A", "B", "A"] =
      some [Symbol.new .ClassDeclaration "X", ⟨.MethodDeclaration, "foo", some ["A"]⟩,
        ⟨.MethodDeclaration, "bar", some ["A", "B"]⟩] ∧
    (∃ set2, insertSymbol
        [Symbol.new .ClassDeclaration "X", ⟨.MethodDeclaration, "foo", some ["A"]⟩]
        (Symbol.new .MethodDeclaration "foo") "B" = some set2) ∧
    (∃ set2, insertEach (Symbol.new .MethodDeclaration "bar")
        [Symbol.new .ClassDeclaration "X", ⟨.MethodDeclaration, "foo", some ["A"]⟩]
        ["A", "B", "A"] = some set2) :=
  ⟨by decide, by decide,
   let ⟨set2, _, _, h, _⟩ := (C7_insertSymbol_accumulates_owners
      [Symbol.new .ClassDeclaration "X", ⟨.MethodDeclaration, "foo", some ["A"]⟩]
      (Symbol.new .MethodDeclaration "foo") (by decide)).1 "B" (by decide) (by decide)
   ⟨set2, h⟩,
   let ⟨set2, _, _, h, _⟩ := (C7_insertSymbol_accumulates_owners
      [Symbol.new .ClassDeclaration "X", ⟨.MethodDeclaration, "foo", some ["A"]⟩]
      (Symbol.new .MethodDeclaration "bar") (by decide)).2.1 ["A", "B", "A"] (by decide)
      (by decide) (by decide)
   ⟨set2, h⟩⟩

/-! ## C8: one symbol per (kind, name) in every scope -/

/-- C8: every table reached from the empty one by `insertSymbolForFile` calls lists each scope
once and holds at most one symbol per (kind, name) in each scope; an insert without owner of
a (kind, name) already in the scope returns the set, and the table, unchanged; and inserting
ClassDeclaration(x) n >= 1 times into one scope leaves exactly that one entry. An insert
reaches no state only when it gives an owner to an entry whose owner pointer is null. -/
theorem C8_one_symbol_per_kind_name :
    (∀ (events : List InsertEvent) (table : List (String × List Symbol)),
      insertAll [] events = some table →
        (table.map Prod.fst).Nodup ∧ ∀ p ∈ table, (p.2.map Symbol.key).Nodup) ∧
    (∀ (set : List Symbol) (symbol : Symbol), (setFind set symbol).isSome = true →
      insertSymbol set symbol "" = some set) ∧
    (∀ (table : List (String × List Symbol)) (fileName : String) (set : List Symbol)
      (symbol : Symbol), mapFind table fileName = some set →
        (setFind set symbol).isSome = true →
        insertSymbolForFile table fileName symbol "" = some table) ∧
    (∀ (n : Nat) (fileName x : String), 1 ≤ n →
      insertAll [] (List.replicate n ⟨fileName, .ClassDeclaration, x, ""⟩) =
        some [(fileName, [Symbol.new .ClassDeclaration x])]) ∧
    (∀ (set : List Symbol) (symbol : Symbol) (className : String),
      insertSymbol set symbol className = none ↔
        className ≠ "" ∧
          ∃ found, setFind set symbol = some found ∧ found.classNames = none) := by
  refine ⟨?_, ?_, ?_, ?_, insertSymbol_eq_none_iff⟩
  · intro events table h
    have hnil : TableWF [] := ⟨by simp, by simp⟩
    exact insertAll_wf events hnil h
  · intro set symbol h
    exact insertSymbol_present_no_owner h
  · intro table fileName set symbol hf hs
    exact insertSymbolForFile_present_no_owner hf hs
  · intro n fileName x hn
    obtain ⟨k, rfl⟩ : ∃ k, n = k + 1 := ⟨n - 1, by omega⟩
    rw [List.replicate_succ, insertAll]
    have h1 : insertSymbolForFile [] fileName (Symbol.new .ClassDeclaration x) "" =
        some [(fileName, [Symbol.new .ClassDeclaration x])] := by
      simp [insertSymbolForFile, mapFind_nil, insertSymbol, setInsert, setFind_nil]
    simp only [h1]
    exact insertAll_replicate_present fileName (Symbol.new .ClassDeclaration x) _
      [Symbol.new .ClassDeclaration x] (by simp [mapFind_cons])
      (by simp [setFind_cons]) k

/-- C8 at a class forward-declared three times and defined once, after a method was recorded
with two owners in the same scope: the scope holds one ClassDeclaration(X) and one
MethodDeclaration(foo), and a further insert of ClassDeclaration(X) changes nothing. -/
theorem C8_one_symbol_per_kind_name_witness :
    insertAll [] [⟨"X.h", .MethodDeclaration, "foo", "X"⟩, ⟨"X.h", .ClassDeclaration, "X", ""⟩,
        ⟨"X.h", .MethodDeclaration, "foo", "Y"⟩, ⟨"X.h", .ClassDeclaration, "X", ""⟩] =
      some [("X.h", [⟨.MethodDeclaration, "foo", some ["X", "Y"]⟩,
        Symbol.new .ClassDeclaration "X"])] ∧
    (([("X.h", [(⟨.MethodDeclaration, "foo", some ["X", "Y"]⟩ : Symbol),
        Symbol.new .ClassDeclaration "X"])].map Prod.fst).Nodup ∧
      ∀ p ∈ [("X.h", [(⟨.MethodDeclaration, "foo", some ["X", "Y"]⟩ : Symbol),
        Symbol.new .ClassDeclaration "X"])], (p.2.map Symbol.key).Nodup) ∧
    insertSymbolForFile [("X.h", [⟨.MethodDeclaration, "foo", some ["X", "Y"]⟩,
        Symbol.new .ClassDeclaration "X"])] "X.h" (Symbol.new .ClassDeclaration "X") "" =
      some [("X.h", [⟨.MethodDeclaration, "foo", some ["X", "Y"]⟩,
        Symbol.new .ClassDeclaration "X"])] ∧
    insertAll [] (List.replicate 4 ⟨"X.h", .ClassDeclaration, "X", ""⟩) =
      some [("X.h", [Symbol.new .ClassDeclaration "X"])] :=
  ⟨by decide,
   C8_one_symbol_per_kind_name.1
     [⟨"X.h", .MethodDeclaration, "foo", "X"⟩, ⟨"X.h", .ClassDeclaration, "X", ""⟩,
      ⟨"X.h", .MethodDeclaration, "foo", "Y"⟩, ⟨"X.h", .ClassDeclaration, "X", ""⟩]
     _ (by decide),
   C8_one_symbol_per_kind_name.2.2.1 _ "X.h"
     [⟨.MethodDeclaration, "foo", some ["X", "Y"]⟩, Symbol.new .ClassDeclaration "X"]
     _ (by decide) (by decide),
   C8_one_symbol_per_kind_name.2.2.2.1 4 "X.h" "X" (by decide)⟩

/-! ## C9: every row of the table exonerates its header -/

/-- C9 fails on the class-aware rows: a method declaration and a method usage of the same
name, inserted without owners, or with the unrelated owners Base and Unrelated, leave the
header unused. -/
theorem C9_class_aware_rows_need_related_owners :
    (insertAll [] [⟨"H.h", .MethodDeclaration, "x", ""⟩, ⟨"main.m", .Method, "x", ""⟩]).map
      (fun t => anySymbolUsed [] (symbolsOf t "H.h") (symbolsOf t "main.m")) =
        some (some false) ∧
    (insertAll [] [⟨"H.h", .MethodDeclaration, "x", "Base"⟩,
        ⟨"main.m", .Method, "x", "Unrelated"⟩]).map
      (fun t => anySymbolUsed [] (symbolsOf t "H.h") (symbolsOf t "main.m")) =
        some (some false) := by
  decide

/-- C9 as amended: from the empty table, inserting Decl(K, x) into scope H and then
Usage(U, x) into the main scope makes `anySymbolUsed(symbols of H, symbols of main)` true for
every plain row (K, U) of the table, and for every class-aware row when the declaration is
inserted with an owner D and the usage with an owner R such that R is "id", or R is D or has
D among its recorded superclasses. -/
theorem C9_table_rows_exonerate_header (superClass : List (String × String))
    (K U : SymbolType) (x H mainFile : String) :
    ((K, U) ∈ plainRows →
      ∃ t, insertAll [] [⟨H, K, x, ""⟩, ⟨mainFile, U, x, ""⟩] = some t ∧
        anySymbolUsed superClass (symbolsOf t H) (symbolsOf t mainFile) = some true) ∧
    ((K, U) ∈ classAwareRows → ∀ D R : String, D ≠ "" → R ≠ "" →
      (R = "id" ∨ Reaches superClass R D) →
      ∃ t, insertAll [] [⟨H, K, x, D⟩, ⟨mainFile, U, x, R⟩] = some t ∧
        anySymbolUsed superClass (symbolsOf t H) (symbolsOf t mainFile) = some true) := by
  constructor
  · intro h
    simp only [plainRows, List.mem_cons, Prod.mk.injEq, List.mem_singleton, List.mem_nil_iff,
      or_false] at h
    by_cases hH : H = mainFile
    · rcases h with h | h | h | h | h | h | h | h | h | h | h | h <;>
        obtain ⟨rfl, rfl⟩ := h <;>
        refine ⟨_, insertAll_two H mainFile x "" "" _ _ (by decide), ?_⟩ <;>
        simp [hH, symbolsOf, mapFind_cons, anySymbolUsed, symbolUsed, setHas, setFind_cons,
          setFind_nil, Symbol.key, Symbol.new, freshSymbol]
    · rcases h with h | h | h | h | h | h | h | h | h | h | h | h <;>
        obtain ⟨rfl, rfl⟩ := h <;>
        refine ⟨_, insertAll_two H mainFile x "" "" _ _ (by decide), ?_⟩ <;>
        simp [hH, symbolsOf, mapFind_cons, mapFind_nil, anySymbolUsed, symbolUsed, setHas,
          setFind_cons, setFind_nil, Symbol.key, Symbol.new, freshSymbol]
  · intro h D R hD hR hrel
    have hrel2 : R = "id" ∨ isSameOrSubClass superClass D R = some true :=
      hrel.imp id (isSameOrSubClass_true_iff superClass D R).mpr
    have hm := matchClasses_single superClass D R hrel2
    simp only [classAwareRows, List.mem_cons, Prod.mk.injEq, List.mem_singleton,
      List.mem_nil_iff, or_false] at h
    by_cases hH : H = mainFile
    · rcases h with h | h | h | h <;>
        obtain ⟨rfl, rfl⟩ := h <;>
        refine ⟨_, insertAll_two H mainFile x D R _ _ (by decide), ?_⟩ <;>
        simp [hH, symbolsOf, mapFind_cons, anySymbolUsed, symbolUsed, matchWithClass,
          setFind_cons, setFind_nil, Symbol.key, Symbol.new, freshSymbol, hD, hR, hm]
    · rcases h with h | h | h | h <;>
        obtain ⟨rfl, rfl⟩ := h <;>
        refine ⟨_, insertAll_two H mainFile x D R _ _ (by decide), ?_⟩ <;>
        simp [hH, symbolsOf, mapFind_cons, mapFind_nil, anySymbolUsed, symbolUsed,
          matchWithClass, setFind_cons, setFind_nil, Symbol.key, Symbol.new, freshSymbol,
          hD, hR, hm]

/-- C9 as amended, at the rows (ClassDeclaration, Type) and (PropertyDeclaration, Method)
with the index Derived -> Base. -/
theorem C9_table_rows_exonerate_header_witness :
    (SymbolType.ClassDeclaration, SymbolType.Type_) ∈ plainRows ∧
    (SymbolType.PropertyDeclaration, SymbolType.Method) ∈ classAwareRows ∧
    Reaches [("Derived", "Base")] "Derived" "Base" ∧
    (∃ t, insertAll [] [⟨"H.h", .ClassDeclaration, "x", ""⟩, ⟨"main.m", .Type_, "x", ""⟩] =
        some t ∧
      anySymbolUsed [("Derived", "Base")] (symbolsOf t "H.h") (symbolsOf t "main.m") =
        some true) ∧
    (∃ t, insertAll [] [⟨"H.h", .PropertyDeclaration, "x", "Base"⟩,
        ⟨"main.m", .Method, "x", "Derived"⟩] = some t ∧
      anySymbolUsed [("Derived", "Base")] (symbolsOf t "H.h") (symbolsOf t "main.m") =
        some true) :=
  have hr : Reaches [("Derived", "Base")] "Derived" "Base" :=
    (isSameOrSubClass_true_iff [("Derived", "Base")] "Base" "Derived").mp (by decide)
  ⟨by decide, by decide, hr,
   (C9_table_rows_exonerate_header [("Derived", "Base")] .ClassDeclaration .Type_ "x" "H.h"
      "main.m").1 (by decide),
   (C9_table_rows_exonerate_header [("Derived", "Base")] .PropertyDeclaration .Method "x"
      "H.h" "main.m").2 (by decide) "Base" "Derived" (by decide) (by decide) (Or.inr hr)⟩

/-! ## C10: a usage on `id` keeps the header -/

/-- C10: on an acyclic class index, when the header set H has a MethodDeclaration(m) entry
whose owners include D and the main set M (without duplicates) has a Method(m) entry whose
owners include "id", `anySymbolUsed(H, M)` is true, whatever the index says about D and
whatever the other owners and symbols are; inserting MethodDeclaration(m) with a non-empty
owner D, and Method(m) with owner "id", produces such entries. -/
theorem C10_id_usage_exonerates_header (superClass : List (String × String))
    (hac : Acyclic superClass) (m D : String) :
    (∀ (H M : List Symbol) (ds us : List String), (M.map Symbol.key).Nodup →
      ⟨.MethodDeclaration, m, some ds⟩ ∈ H → D ∈ ds →
      ⟨.Method, m, some us⟩ ∈ M → "id" ∈ us →
      anySymbolUsed superClass H M = some true) ∧
    (∀ (H0 M0 H M : List Symbol), (M0.map Symbol.key).Nodup → D ≠ "" →
      insertSymbol H0 (Symbol.new .MethodDeclaration m) D = some H →
      insertSymbol M0 (Symbol.new .Method m) "id" = some M →
      anySymbolUsed superClass H M = some true) := by
  have main1 : ∀ (H M : List Symbol) (ds us : List String), (M.map Symbol.key).Nodup →
      ⟨.MethodDeclaration, m, some ds⟩ ∈ H → D ∈ ds →
      ⟨.Method, m, some us⟩ ∈ M → "id" ∈ us →
      anySymbolUsed superClass H M = some true := by
    intro H M ds us hM hd hD hu hid
    rw [anySymbolUsed_eq superClass hac M H]
    have hused : symbolUsed superClass ⟨.MethodDeclaration, m, some ds⟩ M = some true := by
      have : symbolUsed superClass ⟨.MethodDeclaration, m, some ds⟩ M =
          matchWithClass superClass ⟨.MethodDeclaration, m, some ds⟩ .Method M := rfl
      rw [this, matchWithClass_true_iff superClass hac _ _ _ hM]
      exact ⟨_, hu, rfl, rfl, ds, us, rfl, rfl, D, hD, "id", hid, Or.inl rfl⟩
    have : ∃ s ∈ H, symbolUsed superClass s M = some true := ⟨_, hd, hused⟩
    simp only [this, decide_True]
  refine ⟨main1, ?_⟩
  intro H0 M0 H M hM0 hD hH hM
  obtain ⟨e, he, het, hev, ds, hds, hDm⟩ := insertSymbol_owner_mem hD hH
  obtain ⟨u, hu, hut, huv, us, hus, hid⟩ :=
    insertSymbol_owner_mem (show "id" ≠ "" by decide) hM
  have hMwf : (M.map Symbol.key).Nodup := insertSymbol_keys_nodup hM0 hM
  have e1 : e = ⟨.MethodDeclaration, m, some ds⟩ := by
    cases e; simp_all [Symbol.new]
  have e2 : u = ⟨.Method, m, some us⟩ := by
    cases u; simp_all [Symbol.new]
  exact main1 H M ds us hMwf (e1 ▸ he) hDm (e2 ▸ hu) hid

/-- C10 on the index Derived -> Base, for a method declared on the unrelated class Other and
called once on a Derived and once on `id`. -/
theorem C10_id_usage_exonerates_header_witness :
    Acyclic [("Derived", "Base")] ∧
    insertSymbol [Symbol.new .ClassDeclaration "Other"]
      (Symbol.new .MethodDeclaration "foo") "Other" =
      some [Symbol.new .ClassDeclaration "Other",
        ⟨.MethodDeclaration, "foo", some ["Other"]⟩] ∧
    insertSymbol [⟨.Method, "foo", some ["Derived"]⟩] (Symbol.new .Method "foo") "id" =
      some [⟨.Method, "foo", some ["Derived", "id"]⟩] ∧
    anySymbolUsed [("Derived", "Base")]
      [Symbol.new .ClassDeclaration "Other", ⟨.MethodDeclaration, "foo", some ["Other"]⟩]
      [⟨.Method, "foo", some ["Derived", "id"]⟩] = some true :=
  ⟨acyclic_derived_base, by decide, by decide,
   (C10_id_usage_exonerates_header [("Derived", "Base")] acyclic_derived_base "foo"
      "Other").2 [Symbol.new .ClassDeclaration "Other"] [⟨.Method, "foo", some ["Derived"]⟩]
      _ _ (by decide) (by decide) (by decide) (by decide)⟩

/-! ## C11: a usage on a class exonerates the headers of its ancestors -/

/-- C11: on an acyclic class index, when the header set holds only MethodDeclaration(m) with
owner Base and the main set (without duplicates) holds Method(m) whose only owner is a class
U other than "id", `anySymbolUsed(H, main)` returns true exactly when U is Base or a chain
of recorded superclass links leads from U to Base, and false otherwise. -/
theorem C11_method_usage_follows_ancestry (superClass : List (String × String))
    (hac : Acyclic superClass) (m Base U : String) (M : List Symbol)
    (hM : (M.map Symbol.key).Nodup) (hu : ⟨.Method, m, some [U]⟩ ∈ M) (hid : U ≠ "id") :
    (anySymbolUsed superClass [⟨.MethodDeclaration, m, some [Base]⟩] M = some true ↔
      Reaches superClass U Base) ∧
    (anySymbolUsed superClass [⟨.MethodDeclaration, m, some [Base]⟩] M = some false ↔
      ¬ Reaches superClass U Base) := by
  have hf : setFind M (Symbol.new .Method m) = some ⟨.Method, m, some [U]⟩ :=
    setFind_of_mem hM hu rfl
  have hmw : matchWithClass superClass ⟨.MethodDeclaration, m, some [Base]⟩ .Method M =
      some (decide (isSameOrSubClass superClass Base U = some true)) := by
    simp only [matchWithClass, hf, matchClasses_eq superClass hac]
    simp [hid]
  have hany : anySymbolUsed superClass [⟨.MethodDeclaration, m, some [Base]⟩] M =
      some (decide (isSameOrSubClass superClass Base U = some true)) := by
    have hs : symbolUsed superClass ⟨.MethodDeclaration, m, some [Base]⟩ M =
        matchWithClass superClass ⟨.MethodDeclaration, m, some [Base]⟩ .Method M := rfl
    unfold anySymbolUsed
    rw [hs, hmw]
    by_cases h : isSameOrSubClass superClass Base U = some true
    · simp [h]
    · simp [h, anySymbolUsed]
  rw [hany, ← isSameOrSubClass_true_iff]
  by_cases h : isSameOrSubClass superClass Base U = some true <;> simp [h]

/-- C11 on the index Derived2 -> Derived -> Base: a method of Base called on a Derived2 keeps
the header, the same call on an Unrelated does not. -/
theorem C11_method_usage_follows_ancestry_witness :
    Acyclic [("Derived2", "Derived"), ("Derived", "Base")] ∧
    Reaches [("Derived2", "Derived"), ("Derived", "Base")] "Derived2" "Base" ∧
    ¬ Reaches [("Derived2", "Derived"), ("Derived", "Base")] "Unrelated" "Base" ∧
    anySymbolUsed [("Derived2", "Derived"), ("Derived", "Base")]
      [⟨.MethodDeclaration, "foo", some ["Base"]⟩]
      [Symbol.new .Type_ "Derived2", ⟨.Method, "foo", some ["Derived2"]⟩] = some true ∧
    anySymbolUsed [("Derived2", "Derived"), ("Derived", "Base")]
      [⟨.MethodDeclaration, "foo", some ["Base"]⟩]
      [⟨.Method, "foo", some ["Unrelated"]⟩] = some false :=
  have hac : Acyclic [("Derived2", "Derived"), ("Derived", "Base")] :=
    acyclic_of_rank _
      (fun s => if s = "Derived2" then 2 else if s = "Derived" then 1 else 0) (by
        intro a b h
        simp only [Link, mapFind_cons, mapFind_nil] at h
        by_cases h2 : "Derived2" = a
        · subst h2
          simp at h
          subst h
          decide
        · by_cases h1 : "Derived" = a
          · subst h1
            simp at h
            subst h
            decide
          · simp [h2, h1] at h)
  ⟨hac,
   (C11_method_usage_follows_ancestry _ hac "foo" "Base" "Derived2"
      [Symbol.new .Type_ "Derived2", ⟨.Method, "foo", some ["Derived2"]⟩]
      (by decide) (by decide) (by decide)).1.mp (by decide),
   (C11_method_usage_follows_ancestry _ hac "foo" "Base" "Unrelated"
      [⟨.Method, "foo", some ["Unrelated"]⟩]
      (by decide) (by decide) (by decide)).2.mp (by decide),
   by decide, by decide⟩

/-! ## C12: an imported scope without recorded declarations -/

/-- C13 fails on a header scope with symbols and no recorded line: Stray.h, none of whose
symbols is used, is reported with line 0; so is the main file itself when its path ends in
".h". -/
theorem C13_unrecorded_header_reported_with_line_zero :
    main 0 "main.m"
      { symbolsForFile := [("main.m", [Symbol.new .Type_ "A"]),
          ("Stray.h", [Symbol.new .ClassDeclaration "X"])],
        lineNumbers := [],
        modulesImported := [],
        superClass := [] } = some (["main.m:0: warning: Unused import Stray.h"], 0) ∧
    main 0 "main.h"
      { symbolsForFile := [("main.h", [Symbol.new .Type_ "A"])],
        lineNumbers := [],
        modulesImported := [],
        superClass := [] } = some (["main.h:0: warning: Unused import main.h"], 0) := by
  decide

/-- C13 as amended: a scope of the symbol table whose key ends in ".h", with no recorded line
and none of its symbols used, is reported with line 0 in every report `main` returns (and
`main` returns on an acyclic class index); a scope whose key neither ends in ".h" nor is an
imported module gets no line: the lines written are those of scopes other than it. -/
theorem C13_only_suffix_and_modules_gate_the_report (result : Int) (file : String)
    (a : Analysis) (hwf : (a.symbolsForFile.map Prod.fst).Nodup) (k : String) :
    (∀ set, (k, set) ∈ a.symbolsForFile → hasEnding k ".h" = true →
      mapFind a.lineNumbers k = none → k ∉ a.modulesImported →
      anySymbolUsed a.superClass set (symbolsOf a.symbolsForFile file) = some false →
      (∀ r, main result file a = some r → warningLine file 0 k ∈ r.1) ∧
      (Acyclic a.superClass → ∃ r, main result file a = some r)) ∧
    (hasEnding k ".h" = false → k ∉ a.modulesImported →
      ∀ r, main result file a = some r →
        ∃ scopes : List String, k ∉ scopes ∧
          r.1 = scopes.map (fun s => warningLine file ((mapFind a.lineNumbers s).getD 0) s)) := by
  constructor
  · intro set hmem hk hline _ hany
    have hsym : symbolsOf a.symbolsForFile k = set := symbolsOf_of_mem hwf hmem
    have hin : k ∈ unusedScopes a file := by
      rw [mem_unusedScopes]
      refine ⟨List.mem_map_of_mem Prod.fst hmem, Or.inl hk, ?_⟩
      rw [hsym]
      exact hany
    refine ⟨?_, fun hac => ⟨_, main_total result file a hwf hac⟩⟩
    intro r hr
    rw [main_some_eq result file a hwf r hr]
    have := List.mem_map_of_mem
      (fun s => warningLine file ((mapFind a.lineNumbers s).getD 0) s) hin
    simpa [hline] using this
  · intro hk hmod r hr
    refine ⟨unusedScopes a file, ?_, ?_⟩
    · intro hin
      rcases ((mem_unusedScopes a file k).mp hin).2.1 with h | h
      · rw [hk] at h; cases h
      · exact hmod h
    · rw [main_some_eq result file a hwf r hr]

/-- C13 as amended, on the state of the counterexample extended with the scope Other, which
has neither the header suffix nor an import: Stray.h is reported with line 0. -/
theorem C13_only_suffix_and_modules_gate_the_report_witness :
    main 0 "main.m"
      { symbolsForFile := [("main.m", [Symbol.new .Type_ "A"]),
          ("Stray.h", [Symbol.new .ClassDeclaration "X"]),
          ("Other", [Symbol.new .MacroDefinition "BAR"])],
        lineNumbers := [],
        modulesImported := [],
        superClass := [] } = some (["main.m:0: warning: Unused import Stray.h"], 0) ∧
    warningLine "main.m" 0 "Stray.h" ∈ ["main.m:0: warning: Unused import Stray.h"] :=
  ⟨by decide,
   ((C13_only_suffix_and_modules_gate_the_report 0 "main.m"
      { symbolsForFile := [("main.m", [Symbol.new .Type_ "A"]),
          ("Stray.h", [Symbol.new .ClassDeclaration "X"]),
          ("Other", [Symbol.new .MacroDefinition "BAR"])],
        lineNumbers := [],
        modulesImported := [],
        superClass := [] } (by decide) "Stray.h").1
      [Symbol.new .ClassDeclaration "X"] (by decide) (by decide) (by decide) (by decide)
      (by decide)).1
      (["main.m:0: warning: Unused import Stray.h"], 0) (by decide)⟩

/-! ## C14: the line stored for an import -/

/-- C14 at the failing input: the module Kit imported at line 3 and again at line 7 ends
with line 7 stored (`lineNumbers[name] = line` overwrites), so the warning points at line 7;
the header path stores a line only when the file has none and keeps line 3. -/
theorem C14_module_import_line_is_overwritten :
    (VisitImportDecl (VisitImportDecl ⟨[], [], [], []⟩ "Kit" 3) "Kit" 7).lineNumbers =
      [("Kit", 7)] ∧
    (VisitImportDecl (VisitImportDecl ⟨[], [], [], []⟩ "Kit" 3) "Kit" 7).modulesImported =
      ["Kit"] ∧
    main 0 "main.m"
      { VisitImportDecl (VisitImportDecl ⟨[], [], [], []⟩ "Kit" 3) "Kit" 7 with
        symbolsForFile := [("Kit", [Symbol.new .ClassDeclaration "K"])] } =
      some (["main.m:7: warning: Unused import Kit"], 0) ∧
    ((addSymbolIfIncludedByMain ⟨[], [], [], []⟩ "A.h" 3
        (Symbol.new .ClassDeclaration "A") "").bind
      (fun a => addSymbolIfIncludedByMain a "A.h" 7 (Symbol.new .ClassDeclaration "B") "")).map
      (fun a => a.lineNumbers) = some [("A.h", 3)] := by
  decide

/-! ## C15: recording a superclass -/

/-- C15 fails on a class that already has a superclass: recording (A, C) in the index A -> B
leaves A -> B, since `insert` does not replace the value of a present key. -/
theorem C15_record_keeps_the_first_superclass :
    recordSuperClass [("A", "B")] "A" "C" = [("A", "B")] ∧
    mapFind (recordSuperClass [("A", "B")] "A" "C") "A" = some "B" ∧
    mapFind (recordSuperClass [("A", "B")] "A" "C") "A" ≠ some "C" := by
  decide

/-- C15 as amended: recording (s, p) maps s to p when s had no entry and leaves the whole
index unchanged when s had one (the superclass recorded first is kept); the entry of every
other class is unchanged; recording (s, p) a second time changes nothing. -/
theorem C15_record_inserts_when_absent (superClass : List (String × String))
    (s p : String) :
    (mapFind superClass s = none → mapFind (recordSuperClass superClass s p) s = some p) ∧
    (∀ q, mapFind superClass s = some q → recordSuperClass superClass s p = superClass) ∧
    (∀ c, c ≠ s → mapFind (recordSuperClass superClass s p) c = mapFind superClass c) ∧
    recordSuperClass (recordSuperClass superClass s p) s p =
      recordSuperClass superClass s p := by
  have hnone : mapFind superClass s = none →
      recordSuperClass superClass s p = superClass ++ [(s, p)] := by
    intro h
    simp only [recordSuperClass, mapInsert, h]
  have hsome : ∀ q, mapFind superClass s = some q →
      recordSuperClass superClass s p = superClass := by
    intro q h
    simp only [recordSuperClass, mapInsert, h]
  have hfind : mapFind superClass s = none →
      mapFind (recordSuperClass superClass s p) s = some p := by
    intro h
    rw [hnone h, mapFind_append, h]
    simp [mapFind_cons]
  refine ⟨hfind, hsome, ?_, ?_⟩
  · intro c hc
    cases h : mapFind superClass s with
    | none => rw [hnone h]; exact mapFind_append_ne superClass s c p hc
    | some q => rw [hsome q h]
  · cases h : mapFind superClass s with
    | none =>
      have h2 := hfind h
      simp only [recordSuperClass, mapInsert] at h2 ⊢
      simp only [h2]
    | some q => rw [hsome q h, hsome q h]

/-- C15 as amended, on the index Derived -> Base: recording (Other, Base) adds the entry,
recording (Derived, Other) changes nothing. -/
theorem C15_record_inserts_when_absent_witness :
    mapFind [("Derived", "Base")] "Other" = none ∧
    mapFind (recordSuperClass [("Derived", "Base")] "Other" "Base") "Other" = some "Base" ∧
    mapFind [("Derived", "Base")] "Derived" = some "Base" ∧
    recordSuperClass [("Derived", "Base")] "Derived" "Other" = [("Derived", "Base")] :=
  ⟨by decide,
   (C15_record_inserts_when_absent [("Derived", "Base")] "Other" "Base").1 (by decide),
   by decide,
   (C15_record_inserts_when_absent [("Derived", "Base")] "Derived" "Other").2.1 "Base"
     (by decide)⟩

/-! ## C16: order of two inserts -/

/-- C16 fails on an owner-less and an owner-carrying insert of a (kind, name) the scope does
not hold: from the empty table, Method(foo) inserted without owner and then with owner Foo
dereferences the null owner pointer and reaches no table, while the other order yields the
entry with owners {Foo}. -/
theorem C16_ownerless_then_owner_differs_from_reverse :
    insertAll [] [⟨"main.m", .Method, "foo", ""⟩, ⟨"main.m", .Method, "foo", "Foo"⟩] = none ∧
    insertAll [] [⟨"main.m", .Method, "foo", "Foo"⟩, ⟨"main.m", .Method, "foo", ""⟩] =
      some [("main.m", [⟨.Method, "foo", some ["Foo"]⟩])] := by
  decide

/-- C16 as amended: for every symbol table and two insert events for the same scope, when
both orders reach a table the two tables have the same scopes, the same entries and the same
owner sets (and no duplicates, when the table had none); and either both orders reach a
table or neither does, except when the events
name one (kind, name) that the scope does not hold and exactly one of them carries an owner:
then the owner-less event first reaches no table and the other order does. -/
theorem C16_insert_order_up_to_owner_clash (table : List (String × List Symbol))
    (e1 e2 : InsertEvent) (hf : e1.fileName = e2.fileName) :
    (∀ r1 r2, insertAll table [e1, e2] = some r1 → insertAll table [e2, e1] = some r2 →
      SameTable r1 r2 ∧ (TableWF table → TableWF r1 ∧ TableWF r2)) ∧
    (¬ OwnerClash table e1 e2 →
      (insertAll table [e1, e2] = none ↔ insertAll table [e2, e1] = none)) ∧
    (OwnerClash table e1 e2 → e1.className = "" →
      insertAll table [e1, e2] = none ∧ ∃ r, insertAll table [e2, e1] = some r) := by
  have h12 := insertAll_two_same table e1 e2 hf
  have h21 := insertAll_two_same table e2 e1 hf.symm
  rw [← hf] at h21
  have hnone : ∀ (x : Option (List Symbol)) (y : List Symbol → Option (List Symbol))
      (g : List Symbol → List Symbol → List (String × List Symbol)),
      x.bind (fun A => (y A).map (g A)) = none ↔ x.bind y = none := by
    intro x y g
    cases x with
    | none => simp
    | some A => cases h : y A <;> simp [h]
  have n12 := (hnone _ (fun A => insertSymbol A (Symbol.new e2.type e2.value) e2.className)
    (fun A A2 => mapAssign (mapAssign table e1.fileName A) e1.fileName A2)).trans
    (two_inserts_none_iff (symbolsOf table e1.fileName) e1.type e2.type e1.value e2.value
      e1.className e2.className)
  have n21 := (hnone _ (fun A => insertSymbol A (Symbol.new e1.type e1.value) e1.className)
    (fun A A2 => mapAssign (mapAssign table e1.fileName A) e1.fileName A2)).trans
    (two_inserts_none_iff (symbolsOf table e1.fileName) e2.type e1.type e2.value e1.value
      e2.className e1.className)
  rw [← h12] at n12
  rw [← h21] at n21
  refine ⟨?_, ?_, ?_⟩
  · intro r1 r2 hr1 hr2
    refine ⟨?_, fun hwf => ⟨insertAll_wf _ hwf hr1, insertAll_wf _ hwf hr2⟩⟩
    rw [h12] at hr1
    rw [h21] at hr2
    cases hA : insertSymbol (symbolsOf table e1.fileName) (Symbol.new e1.type e1.value)
        e1.className with
    | none => simp [hA] at hr1
    | some A =>
      cases hA2 : insertSymbol A (Symbol.new e2.type e2.value) e2.className with
      | none => simp [hA, hA2] at hr1
      | some A2 =>
        cases hB : insertSymbol (symbolsOf table e1.fileName) (Symbol.new e2.type e2.value)
            e2.className with
        | none => simp [hB] at hr2
        | some B =>
          cases hB2 : insertSymbol B (Symbol.new e1.type e1.value) e1.className with
          | none => simp [hB, hB2] at hr2
          | some B2 =>
            simp only [hA, hA2, hB, hB2, Option.some_bind, Option.map_some',
              Option.some.injEq] at hr1 hr2
            subst hr1 hr2
            intro g
            by_cases hg : g = e1.fileName
            · subst hg
              rw [mapFind_mapAssign_same, mapFind_mapAssign_same]
              exact two_inserts_same hA hA2 hB hB2
            · rw [mapFind_mapAssign_ne _ _ _ _ hg, mapFind_mapAssign_ne _ _ _ _ hg,
                mapFind_mapAssign_ne _ _ _ _ hg, mapFind_mapAssign_ne _ _ _ _ hg]
              cases mapFind table g with
              | none => trivial
              | some X => exact fun t v => sameOwners_refl _
  · intro hclash
    rw [n12, n21]
    by_cases hk : (e1.type, e1.value) = (e2.type, e2.value)
    · have ht : e1.type = e2.type := (Prod.mk.inj hk).1
      have hv : e1.value = e2.value := (Prod.mk.inj hk).2
      have hnc : ¬ (((e1.className = "" ∧ ¬ e2.className = "") ∨
          (¬ e1.className = "" ∧ e2.className = "")) ∧
          ownersOf (symbolsOf table e1.fileName) e1.type e1.value = none) :=
        fun h => hclash ⟨ht, hv, h.1, h.2⟩
      rw [← ht, ← hv]
      exact order_prop_same _ _ _ _ _ _ _ rfl hnc
    · have hk2 : ¬ (e2.type, e2.value) = (e1.type, e1.value) := fun e => hk e.symm
      exact order_prop_other _ _ _ _ _ _ hk hk2
  · intro hclash hc1
    obtain ⟨ht, hv, hx, hnone2⟩ := hclash
    have hc2 : e2.className ≠ "" := by
      rcases hx with ⟨_, h⟩ | ⟨h, _⟩
      · exact h
      · exact absurd hc1 h
    have hk : (e1.type, e1.value) = (e2.type, e2.value) := by rw [ht, hv]
    constructor
    · rw [n12]
      exact Or.inl ⟨hk, Or.inr ⟨hnone2, hc1, hc2⟩⟩
    · cases hr : insertAll table [e2, e1] with
      | some r => exact ⟨r, rfl⟩
      | none =>
        exfalso
        rcases n21.mp hr with ⟨_, (⟨hs, _⟩ | ⟨_, h2, _⟩)⟩ | ⟨hne, _⟩
        · rw [← ht, ← hv, hnone2] at hs
          cases hs
        · exact hc2 h2
        · exact hne hk.symm

/-- C16 as amended, on a scope that holds MethodDeclaration(foo) owned by Base: the inserts
of the owners A and B give {Base, A, B} in either order, and an owner-less insert commutes
with the insert of owner A. -/
theorem C16_insert_order_up_to_owner_clash_witness :
    insertAll [("H.h", [⟨.MethodDeclaration, "foo", some ["Base"]⟩])]
      [⟨"H.h", .MethodDeclaration, "foo", "A"⟩, ⟨"H.h", .MethodDeclaration, "foo", "B"⟩] =
      some [("H.h", [⟨.MethodDeclaration, "foo", some ["Base", "A", "B"]⟩])] ∧
    insertAll [("H.h", [⟨.MethodDeclaration, "foo", some ["Base"]⟩])]
      [⟨"H.h", .MethodDeclaration, "foo", "B"⟩, ⟨"H.h", .MethodDeclaration, "foo", "A"⟩] =
      some [("H.h", [⟨.MethodDeclaration, "foo", some ["Base", "B", "A"]⟩])] ∧
    SameTable [("H.h", [⟨.MethodDeclaration, "foo", some ["Base", "A", "B"]⟩])]
      [("H.h", [⟨.MethodDeclaration, "foo", some ["Base", "B", "A"]⟩])] ∧
    (insertAll [("H.h", [⟨.MethodDeclaration, "foo", some ["Base"]⟩])]
        [⟨"H.h", .MethodDeclaration, "foo", ""⟩, ⟨"H.h", .MethodDeclaration, "foo", "A"⟩] =
        none ↔
      insertAll [("H.h", [⟨.MethodDeclaration, "foo", some ["Base"]⟩])]
        [⟨"H.h", .MethodDeclaration, "foo", "A"⟩, ⟨"H.h", .MethodDeclaration, "foo", ""⟩] =
        none) :=
  ⟨by decide, by decide,
   ((C16_insert_order_up_to_owner_clash
      [("H.h", [⟨.MethodDeclaration, "foo", some ["Base"]⟩])]
      ⟨"H.h", .MethodDeclaration, "foo", "A"⟩ ⟨"H.h", .MethodDeclaration, "foo", "B"⟩ rfl).1
      [("H.h", [⟨.MethodDeclaration, "foo", some ["Base", "A", "B"]⟩])]
      [("H.h", [⟨.MethodDeclaration, "foo", some ["Base", "B", "A"]⟩])]
      (by decide) (by decide)).1,
   (C16_insert_order_up_to_owner_clash
      [("H.h", [⟨.MethodDeclaration, "foo", some ["Base"]⟩])]
      ⟨"H.h", .MethodDeclaration, "foo", ""⟩ ⟨"H.h", .MethodDeclaration, "foo", "A"⟩ rfl).2.1
      (by
        have hne : ownersOf (symbolsOf [("H.h", [⟨.MethodDeclaration, "foo", some ["Base"]⟩])]
            "H.h") SymbolType.MethodDeclaration "foo" ≠ none := by decide
        intro h
        exact hne h.2.2.2)⟩

/-! ## C17: inserts are per scope -/

/-- C17: `insertSymbolForFile(f, symbol, owner)` leaves the symbol set of every scope other
than f as it was; and inserting PropertyDeclaration(p) with owner c into two different
scopes that had no entry always succeeds and yields one entry per scope, each with owners
{c}. The scope f itself ends with the set `insertSymbol` makes of its previous symbols. -/
theorem C17_insert_touches_one_scope :
    (∀ (table table2 : List (String × List Symbol)) (f : String) (symbol : Symbol)
      (owner : String), insertSymbolForFile table f symbol owner = some table2 →
      ∀ g, g ≠ f → mapFind table2 g = mapFind table g ∧
        symbolsOf table2 g = symbolsOf table g) ∧
    (∀ (table : List (String × List Symbol)) (h1 h2 p c : String), h1 ≠ h2 → c ≠ "" →
      mapFind table h1 = none → mapFind table h2 = none →
      ∃ t, insertAll table [⟨h1, .PropertyDeclaration, p, c⟩,
          ⟨h2, .PropertyDeclaration, p, c⟩] = some t ∧
        mapFind t h1 = some [⟨.PropertyDeclaration, p, some [c]⟩] ∧
        mapFind t h2 = some [⟨.PropertyDeclaration, p, some [c]⟩] ∧
        ∀ g, g ≠ h1 → g ≠ h2 → mapFind t g = mapFind table g) ∧
    (∀ (table table2 : List (String × List Symbol)) (f : String) (symbol : Symbol)
      (owner : String), insertSymbolForFile table f symbol owner = some table2 →
      ∃ set2, insertSymbol (symbolsOf table f) symbol owner = some set2 ∧
        mapFind table2 f = some set2) := by
  refine ⟨?_, ?_, ?_⟩
  rotate_left 2
  · intro table table2 f symbol owner h
    rw [insertSymbolForFile_eq] at h
    cases hs : insertSymbol (symbolsOf table f) symbol owner with
    | none => simp [hs] at h
    | some set2 =>
      simp only [hs, Option.map_some', Option.some.injEq] at h
      subst h
      exact ⟨set2, rfl, mapFind_mapAssign_same _ _ _⟩
  · intro table table2 f symbol owner h g hg
    have := insertSymbolForFile_frame h g hg
    exact ⟨this, by simp only [symbolsOf, this]⟩
  · intro table h1 h2 p c hne hc hn1 hn2
    have hins : insertSymbol [] (Symbol.new .PropertyDeclaration p) c =
        some [⟨.PropertyDeclaration, p, some [c]⟩] := by
      simp [insertSymbol, setInsert, setFind_nil, strInsert, Symbol.new, hc]
    have hn2b : mapFind (table ++ [(h1, [(⟨.PropertyDeclaration, p, some [c]⟩ : Symbol)])])
        h2 = none := by
      rw [mapFind_append, hn2]
      simp [mapFind_cons, mapFind_nil, hne]
    refine ⟨(table ++ [(h1, [⟨.PropertyDeclaration, p, some [c]⟩])]) ++
      [(h2, [⟨.PropertyDeclaration, p, some [c]⟩])], ?_, ?_, ?_, ?_⟩
    · simp only [insertAll, insertSymbolForFile, hn1, hins, Option.map_some', hn2b]
    · rw [mapFind_append, mapFind_append, hn1]
      simp [mapFind_cons]
    · rw [mapFind_append, hn2b]
      simp [mapFind_cons]
    · intro g hg1 hg2
      rw [mapFind_append_ne _ h2 g _ hg2, mapFind_append_ne _ h1 g _ hg1]

/-- C17 on two category headers that each declare property p on Foo, inserted into a table
that already holds the main file: two entries, one per header, and the main file's set is as
before. -/
theorem C17_insert_touches_one_scope_witness :
    insertAll [("main.m", [Symbol.new .Type_ "Foo"])]
      [⟨"Foo+A.h", .PropertyDeclaration, "p", "Foo"⟩,
       ⟨"Foo+B.h", .PropertyDeclaration, "p", "Foo"⟩] =
      some [("main.m", [Symbol.new .Type_ "Foo"]),
        ("Foo+A.h", [⟨.PropertyDeclaration, "p", some ["Foo"]⟩]),
        ("Foo+B.h", [⟨.PropertyDeclaration, "p", some ["Foo"]⟩])] ∧
    (∃ t, insertAll [("main.m", [Symbol.new .Type_ "Foo"])]
        [⟨"Foo+A.h", .PropertyDeclaration, "p", "Foo"⟩,
         ⟨"Foo+B.h", .PropertyDeclaration, "p", "Foo"⟩] = some t ∧
      mapFind t "Foo+A.h" = some [⟨.PropertyDeclaration, "p", some ["Foo"]⟩] ∧
      mapFind t "Foo+B.h" = some [⟨.PropertyDeclaration, "p", some ["Foo"]⟩] ∧
      ∀ g, g ≠ "Foo+A.h" → g ≠ "Foo+B.h" →
        mapFind t g = mapFind [("main.m", [Symbol.new .Type_ "Foo"])] g) ∧
    (mapFind [("main.m", [Symbol.new .Type_ "Foo"]),
        ("Foo+A.h", [⟨.PropertyDeclaration, "p", some ["Foo"]⟩])] "main.m" =
      mapFind [("main.m", [Symbol.new .Type_ "Foo"])] "main.m" ∧
     symbolsOf [("main.m", [Symbol.new .Type_ "Foo"]),
        ("Foo+A.h", [⟨.PropertyDeclaration, "p", some ["Foo"]⟩])] "main.m" =
      symbolsOf [("main.m", [Symbol.new .Type_ "Foo"])] "main.m") :=
  ⟨by decide,
   C17_insert_touches_one_scope.2.1 [("main.m", [Symbol.new .Type_ "Foo"])] "Foo+A.h"
     "Foo+B.h" "p" "Foo" (by decide) (by decide) (by decide) (by decide),
   C17_insert_touches_one_scope.1 [("main.m", [Symbol.new .Type_ "Foo"])] _ "Foo+A.h"
     (Symbol.new .PropertyDeclaration "p") "Foo" (by decide) "main.m" (by decide)⟩

/-! ## C18: a failed front-end run -/

/-- C18 fails on the sample state with result code 1: `main` returns 1 and still writes the
two warnings. -/
theorem C18_failed_run_still_reports :
    main 1 "main.m" sampleAnalysis =
      some (["main.m:2: warning: Unused import B.h",
             "main.m:4: warning: Unused import Kit"], 1) := by
  decide

/-- C18 as amended: `main` returns the front-end's result code unchanged, and the lines it
writes are those it writes for result code 0: the report does not look at the code. -/
theorem C18_result_code_is_passed_through (result : Int) (file : String) (a : Analysis) :
    main result file a = (main 0 file a).map (fun r => (r.1, result)) := by
  have hmain : ∀ code : Int, main code file a =
      match reportLoop a.superClass file (symbolsOf a.symbolsForFile file) a.modulesImported
        a.symbolsForFile a.lineNumbers [] with
      | none => none
      | some r => some (r.2, code) := fun _ => rfl
  rw [hmain result, hmain 0]
  cases reportLoop a.superClass file (symbolsOf a.symbolsForFile file) a.modulesImported
    a.symbolsForFile a.lineNumbers [] <;> rfl

/-! ## C19: usage kinds are never used -/

/-- C19: for a symbol of a usage kind `symbolUsed` returns false on every usage set, also one
that contains the symbol; `anySymbolUsed` returns false on a set that holds only usage kinds;
hence a scope of the table that is a candidate (header suffix or imported module) and holds
only usage kinds has its warning in every report `main` returns, and `main` returns on an
acyclic class index. -/
theorem C19_usage_kinds_are_never_used :
    (∀ (superClass : List (String × String)) (s : Symbol) (S : List Symbol),
      isUsageKind s.type = true → symbolUsed superClass s S = some false) ∧
    (∀ (superClass : List (String × String)) (H M : List Symbol),
      (∀ s ∈ H, isUsageKind s.type = true) → anySymbolUsed superClass H M = some false) ∧
    (∀ (result : Int) (file : String) (a : Analysis) (k : String) (set : List Symbol),
      (a.symbolsForFile.map Prod.fst).Nodup → (k, set) ∈ a.symbolsForFile →
      (hasEnding k ".h" = true ∨ k ∈ a.modulesImported) →
      (∀ s ∈ set, isUsageKind s.type = true) →
      (∀ r, main result file a = some r →
        warningLine file ((mapFind a.lineNumbers k).getD 0) k ∈ r.1) ∧
      (Acyclic a.superClass → ∃ r, main result file a = some r)) := by
  refine ⟨symbolUsed_usage_kind, fun sc H M => anySymbolUsed_usage_kinds sc M H, ?_⟩
  intro result file a k set hwf hmem hcand hkinds
  have hsym : symbolsOf a.symbolsForFile k = set := symbolsOf_of_mem hwf hmem
  have hin : k ∈ unusedScopes a file := by
    rw [mem_unusedScopes]
    refine ⟨List.mem_map_of_mem Prod.fst hmem, hcand, ?_⟩
    rw [hsym]
    exact anySymbolUsed_usage_kinds _ _ set hkinds
  refine ⟨?_, fun hac => ⟨_, main_total result file a hwf hac⟩⟩
  intro r hr
  rw [main_some_eq result file a hwf r hr]
  exact List.mem_map_of_mem _ hin

/-- C19 on a run whose main file is the header main.h: its own usages Type(A) and
Method(foo) do not count as uses, and the file is reported against itself with line 0. -/
theorem C19_usage_kinds_are_never_used_witness :
    symbolUsed [] (Symbol.new .Type_ "A")
      [Symbol.new .Type_ "A", ⟨.Method, "foo", some ["A"]⟩] = some false ∧
    anySymbolUsed [] [Symbol.new .Type_ "A", ⟨.Method, "foo", some ["A"]⟩]
      [Symbol.new .Type_ "A", ⟨.Method, "foo", some ["A"]⟩] = some false ∧
    main 0 "main.h"
      { symbolsForFile := [("main.h", [Symbol.new .Type_ "A", ⟨.Method, "foo", some ["A"]⟩])],
        lineNumbers := [],
        modulesImported := [],
        superClass := [] } = some (["main.h:0: warning: Unused import main.h"], 0) ∧
    warningLine "main.h" 0 "main.h" ∈ ["main.h:0: warning: Unused import main.h"] :=
  ⟨C19_usage_kinds_are_never_used.1 [] (Symbol.new .Type_ "A") _ (by decide),
   C19_usage_kinds_are_never_used.2.1 [] _ _ (by decide),
   by decide,
   (C19_usage_kinds_are_never_used.2.2 0 "main.h"
      { symbolsForFile := [("main.h", [Symbol.new .Type_ "A", ⟨.Method, "foo", some ["A"]⟩])],
        lineNumbers := [],
        modulesImported := [],
        superClass := [] } "main.h" [Symbol.new .Type_ "A", ⟨.Method, "foo", some ["A"]⟩]
      (by decide) (by decide) (by decide) (by decide)).1
      (["main.h:0: warning: Unused import main.h"], 0) (by decide)⟩

/-! ## C20: more usages never make an import unused -/

/-- C20: on an acyclic class index, when the usage set M2 (without duplicates) has every
(kind, name) of the usage set M (without duplicates) with at least the owners M has for it,
`anySymbolUsed(H, M)` true implies `anySymbolUsed(H, M2)` true. -/
theorem C20_anySymbolUsed_monotone (superClass : List (String × String))
    (hac : Acyclic superClass) (H M M2 : List Symbol)
    (hM : (M.map Symbol.key).Nodup) (hM2 : (M2.map Symbol.key).Nodup)
    (hinc : ∀ u ∈ M, ∃ u2 ∈ M2, u2.type = u.type ∧ u2.value = u.value ∧
      ∀ us, u.classNames = some us → ∃ us2, u2.classNames = some us2 ∧ ∀ c ∈ us, c ∈ us2)
    (h : anySymbolUsed superClass H M = some true) :
    anySymbolUsed superClass H M2 = some true := by
  rw [anySymbolUsed_eq superClass hac M H] at h
  rw [anySymbolUsed_eq superClass hac M2 H]
  simp only [Option.some.injEq, decide_eq_true_eq] at h ⊢
  obtain ⟨s, hs, hused⟩ := h
  refine ⟨s, hs, ?_⟩
  rw [symbolUsed_true_iff superClass hac] at hused ⊢
  exact tableRule_mono superClass hac hM hM2 hinc s hused

/-- C20 on the index Derived -> Base: a header whose method of Base is used through a call on
a Derived stays used when the main file also calls it on an Unrelated and uses a type. -/
theorem C20_anySymbolUsed_monotone_witness :
    Acyclic [("Derived", "Base")] ∧
    anySymbolUsed [("Derived", "Base")] [⟨.MethodDeclaration, "foo", some ["Base"]⟩]
      [⟨.Method, "foo", some ["Derived"]⟩] = some true ∧
    anySymbolUsed [("Derived", "Base")] [⟨.MethodDeclaration, "foo", some ["Base"]⟩]
      [Symbol.new .Type_ "A", ⟨.Method, "foo", some ["Unrelated", "Derived"]⟩] = some true :=
  ⟨acyclic_derived_base, by decide,
   C20_anySymbolUsed_monotone [("Derived", "Base")] acyclic_derived_base
     [⟨.MethodDeclaration, "foo", some ["Base"]⟩] [⟨.Method, "foo", some ["Derived"]⟩]
     [Symbol.new .Type_ "A", ⟨.Method, "foo", some ["Unrelated", "Derived"]⟩]
     (by decide) (by decide)
     (by
      intro u hu
      rw [List.mem_singleton] at hu
      subst hu
      exact ⟨⟨.Method, "foo", some ["Unrelated", "Derived"]⟩, by decide, rfl, rfl,
        fun us hus => ⟨_, rfl, by
          cases hus
          intro c hc
          rw [List.mem_singleton] at hc
          subst hc
          decide⟩⟩)
     (by decide)⟩

end UnusedImports
